import Mathlib

/-! # Syllabus content pipeline: `index.js` (synchronous mode) and `batch.js` (batch mode)

A shallow embedding of the two scripts of the repository.

* JavaScript values that the scripts serialise are values of `Json`; `JSON.stringify`
  is `stringify` (no indentation) and `stringify2` (indentation of two spaces), both
  instances of `serialize`, which follows the ECMAScript algorithm
  `SerializeJSONProperty` / `QuoteJSONString`.
* A JavaScript string is a Lean `String`. Lean strings hold Unicode scalar values, so
  strings with lone surrogates are outside the model.
* The output side of the file system is `FS`, a finite map from file paths to file
  contents. `fs.mkdirSync` is not tracked: creating a directory never changes the
  content of a file, and every file-system call is taken to succeed.
* The input side (the syllabus folder) is a `SyllabusTree`: the directory listing of the
  root, as `fs.readdirSync` returns it, each chapter file carrying the result of
  `JSON.parse` on its text.
* `path.join(a, b)` is `a/b` (`b` is always a bare entry name here).
-/

namespace SyllabusPipeline

/-! ## JSON values and `JSON.stringify` -/

/-- JavaScript values that reach `JSON.stringify` in the two scripts. -/
inductive Json where
  | str (s : String)
  | num (n : Nat)
  | bool (b : Bool)
  | arr (xs : List Json)
  | obj (kvs : List (String × Json))

/-- `Array.prototype.join` on an array of strings. -/
def join (sep : String) : List String → String
  | [] => ""
  | [x] => x
  | x :: y :: rest => x ++ sep ++ join sep (y :: rest)

/-- Lower-case hexadecimal digit of a number below 16. -/
def hexDigit (n : Nat) : Char :=
  if n < 10 then Char.ofNat (48 + n) else Char.ofNat (87 + n)

/-- One code point of `QuoteJSONString`: the two-character escapes of the ECMAScript
table, a `\u00xx` escape for the other control characters, the character itself
otherwise. -/
def quoteChar (c : Char) : String :=
  if c = '\x08' then "\\b"
  else if c = '\t' then "\\t"
  else if c = '\n' then "\\n"
  else if c = '\x0c' then "\\f"
  else if c = '\r' then "\\r"
  else if c = '"' then "\\\""
  else if c = '\\' then "\\\\"
  else if c.toNat < 32 then
    "\\u00" ++ String.mk [hexDigit (c.toNat / 16), hexDigit (c.toNat % 16)]
  else String.singleton c

/-- The concatenation of the escapes of a list of characters. -/
def quoteChars : List Char → String
  | [] => ""
  | c :: cs => quoteChar c ++ quoteChars cs

/-- `QuoteJSONString`: the escaped string between double quotes. -/
def quote (s : String) : String :=
  "\"" ++ quoteChars s.data ++ "\""

mutual
/-- `SerializeJSONProperty` with gap `gap` at current indentation `indent`. -/
def serialize (gap : String) : String → Json → String
  | _, .str s => quote s
  | _, .num n => toString n
  | _, .bool b => if b then "true" else "false"
  | indent, .arr xs =>
    match xs with
    | [] => "[]"
    | x :: rest =>
      if gap = "" then
        "[" ++ join "," (serializeElems gap (indent ++ gap) (x :: rest)) ++ "]"
      else
        "[\n" ++ (indent ++ gap)
          ++ join (",\n" ++ (indent ++ gap)) (serializeElems gap (indent ++ gap) (x :: rest))
          ++ "\n" ++ indent ++ "]"
  | indent, .obj kvs =>
    match kvs with
    | [] => "\x7b\x7d"
    | kv :: rest =>
      if gap = "" then
        "\x7b" ++ join "," (serializeMembers gap (indent ++ gap) (kv :: rest)) ++ "\x7d"
      else
        "\x7b\n" ++ (indent ++ gap)
          ++ join (",\n" ++ (indent ++ gap)) (serializeMembers gap (indent ++ gap) (kv :: rest))
          ++ "\n" ++ indent ++ "\x7d"
/-- The serialised elements of an array, at indentation `indent`. -/
def serializeElems (gap : String) : String → List Json → List String
  | _, [] => []
  | indent, x :: xs => serialize gap indent x :: serializeElems gap indent xs
/-- The serialised members `"key":value` of an object, at indentation `indent`. -/
def serializeMembers (gap : String) : String → List (String × Json) → List String
  | _, [] => []
  | indent, (k, v) :: kvs =>
    (quote k ++ ":" ++ (if gap = "" then "" else " ") ++ serialize gap indent v)
      :: serializeMembers gap indent kvs
end

/-- `JSON.stringify(v)`. -/
def stringify (v : Json) : String := serialize "" "" v

/-- `JSON.stringify(v, null, 2)`. -/
def stringify2 (v : Json) : String := serialize "  " "" v

/-! ## File system, paths and input -/

/-- The output files: path and content, in order of creation. -/
abbrev FS := List (String × String)

/-- The content of the file at `p`, if the file exists. -/
def readFile : FS → String → Option String
  | [], _ => none
  | (q, c) :: rest, p => if q = p then some c else readFile rest p

/-- `fs.writeFileSync(p, data)`: create the file or replace its content. -/
def writeFileSync : FS → String → String → FS
  | [], p, data => [(p, data)]
  | (q, c) :: rest, p, data =>
    if q = p then (q, data) :: rest else (q, c) :: writeFileSync rest p data

/-- `fs.appendFileSync(p, data)`: create the file or extend its content. -/
def appendFileSync : FS → String → String → FS
  | [], p, data => [(p, data)]
  | (q, c) :: rest, p, data =>
    if q = p then (q, c ++ data) :: rest else (q, c) :: appendFileSync rest p data

/-- `path.join(a, b)` for a bare entry name `b`. -/
def pathJoin (a b : String) : String := a ++ "/" ++ b

/-- Index of the last dot of a file name, counted from the start. -/
def lastDot : List Char → Nat → Option Nat → Option Nat
  | [], _, found => found
  | c :: cs, i, found => lastDot cs (i + 1) (if c = '.' then some i else found)

/-- `path.parse(file).name` for a directory entry: the name without its extension, the
extension starting at the last dot unless that dot is the first character. -/
def parseName (file : String) : String :=
  match lastDot file.data 0 none with
  | none => file
  | some 0 => file
  | some i => if file = ".." then file else String.mk (file.data.take i)

/-- `s.slice(-1)` as it reaches the file system in a path: the last UTF-16 code unit of
the string. For a last character of the Basic Multilingual Plane that is the character.
For a last character beyond it the unit is a lone low surrogate, which the file-system
calls encode as U+FFFD when they turn the path into UTF-8. -/
def sliceLast (s : String) : String :=
  match s.data.getLast? with
  | none => ""
  | some c => if c.toNat < 65536 then String.singleton c else "\uFFFD"

/-- The first element of a chapter file: `{ chapter, topics }`. -/
structure ChapterElem where
  chapter : String
  topics : List String
deriving DecidableEq

/-- The value `JSON.parse` returns for a chapter file: an array of elements. -/
abbrev ChapterData := List ChapterElem

/-- A chapter file of a subject folder: its entry name and what `JSON.parse` makes of
its text (`none` when `JSON.parse` throws). -/
structure ChapterFile where
  file : String
  data : Option ChapterData
deriving DecidableEq

/-- A subject folder: its entry name and its chapter files in listing order. -/
structure SubjectDir where
  subject : String
  chapters : List ChapterFile
deriving DecidableEq

/-- The listing of a syllabus root folder. -/
abbrev SyllabusTree := List SubjectDir

/-- The exceptions the scripts can meet. -/
inductive JsError where
  | syntaxError
  | typeError
  | remoteError
deriving DecidableEq

/-! ## Batch mode (`batch.js`) -/

namespace Batch

/-- The template literal of the user message in `getMessages`. -/
def userContent (subject chapter topic grade : String) : String :=
  "As an expert educator in "
    ++ subject
    ++ ", provide a comprehensive content and OBJECTIVE and SUBJECTIVE questions of the topic \""
    ++ topic
    ++ "\" from the chapter \""
    ++ chapter
    ++ "\". Your explanation should:\n"
    ++ "      1. Start with a clear, concise definition or introduction to the topic.\n"
    ++ "      2. Explain the key concepts, principles, or theories related to this topic.\n"
    ++ "      3. Provide relevant examples, analogies, or real-world applications to illustrate the topic.\n"
    ++ "      4. If applicable, include any important formulas, equations, or diagrams (described in text).\n"
    ++ "      5. Discuss any historical context or significant developments related to this topic.\n"
    ++ "      6. Highlight the importance or relevance of this topic within the broader subject area.\n"
    ++ "      7. Address common misconceptions or difficulties students might have with this topic.\n"
    ++ "      8. Provide diagrams in Markdown format if possible.\n"
    ++ "\n"
    ++ "Your content and OBJECTIVE and SUBJECTIVE questions should be suitable for a "
    ++ grade
    ++ "th grade student, balancing depth of content with clarity of explanation."

/-- `getMessages(subject, chapter, topic, grade)`: the system and the user message. -/
def getMessages (subject chapter topic grade : String) : Json :=
  .arr [
    .obj [
      ("role", .str "system"),
      ("content", .str
        "You are an expert educator. Guide the user to content generation and OBJECTIVE and SUBJECTIVE questions")],
    .obj [
      ("role", .str "user"),
      ("content", .str (userContent subject chapter topic grade))]]

/-- The `response_format` member of a batch request body. -/
def responseFormat : Json :=
  .obj [
    ("type", .str "json_schema"),
    ("json_schema", .obj [
      ("name", .str "content_with_questions"),
      ("schema", .obj [
        ("type", .str "object"),
        ("properties", .obj [
          ("grade", .obj [("type", .str "string")]),
          ("subject", .obj [("type", .str "string")]),
          ("chapter", .obj [("type", .str "string")]),
          ("chapterTopic", .obj [("type", .str "string")]),
          ("content", .obj [("type", .str "string")]),
          ("questions", .obj [
            ("type", .str "array"),
            ("items", .obj [
              ("type", .str "object"),
              ("properties", .obj [
                ("type", .obj [
                  ("type", .str "string"),
                  ("enum", .arr [.str "OBJECTIVE", .str "SUBJECTIVE"])]),
                ("questionText", .obj [("type", .str "string")]),
                ("options", .obj [
                  ("type", .str "array"),
                  ("items", .obj [
                    ("type", .str "object"),
                    ("properties", .obj [
                      ("text", .obj [("type", .str "string")]),
                      ("isCorrect", .obj [("type", .str "boolean")])])])]),
                ("explanation", .obj [("type", .str "string")])]),
              ("required", .arr [.str "type", .str "questionText", .str "explanation"])])])]),
        ("required", .arr [
          .str "grade", .str "subject", .str "chapter", .str "chapterTopic",
          .str "content", .str "questions"])]),
      ("strict", .bool true)])]

/-- `createBatchRequest(subject, chapter, topic, customId, grade)`. -/
def createBatchRequest (subject chapter topic customId grade : String) : Json :=
  .obj [
    ("custom_id", .str customId),
    ("method", .str "POST"),
    ("url", .str "/v1/chat/completions"),
    ("body", .obj [
      ("model", .str "gpt-4"),
      ("messages", getMessages subject chapter topic grade),
      ("max_tokens", .num 4096),
      ("response_format", responseFormat)])]

/-- The variables the topic loop of `processChapter` updates. -/
structure LoopState where
  batchRequests : List Json
  topics : List Json
  customIdCounter : Nat

/-- The `for (const topic of chapterData[0].topics)` loop of `processChapter`: each turn
builds the request of the topic under the next custom id (the third argument of
`createBatchRequest` is the `chapterName` parameter), pushes it, and pushes
`{ topic }` on the topics of the chapter output. -/
def topicLoop (subject chapterName grade : String) : List String → LoopState → LoopState
  | [], st => st
  | topic :: rest, st =>
    topicLoop subject chapterName grade rest
      { batchRequests := st.batchRequests ++
          [createBatchRequest subject chapterName topic
            ("request-" ++ toString st.customIdCounter) grade]
        topics := st.topics ++ [.obj [("topic", .str topic)]]
        customIdCounter := st.customIdCounter + 1 }

/-- The batch records `processChapter` builds for a chapter. -/
def batchRequests (subject chapterName grade : String) (first : ChapterElem) : List Json :=
  (topicLoop subject chapterName grade first.topics ⟨[], [], 1⟩).batchRequests

/-- The `chapterOutput` object `processChapter` builds for a chapter. -/
def chapterOutput (subject chapterName grade : String) (first : ChapterElem) : Json :=
  .obj [
    ("chapter", .str first.chapter),
    ("topics", .arr (topicLoop subject chapterName grade first.topics ⟨[], [], 1⟩).topics)]

/-- The text `processChapter` appends to the job file: the serialised records joined by
a newline, and a newline. -/
def batchBlock (subject chapterName grade : String) (first : ChapterElem) : String :=
  join "\n" ((batchRequests subject chapterName grade first).map stringify) ++ "\n"

/-- `processChapter(subject, chapterData, chapterName, grade, outputFilePath,
batchFilePath)`. Reading `chapterData[0].chapter` throws a `TypeError` when the array is
empty, before any file is touched. -/
def processChapter (subject : String) (chapterData : ChapterData)
    (chapterName grade outputFilePath batchFilePath : String) (fs : FS) : Except JsError FS :=
  match chapterData with
  | [] => .error .typeError
  | first :: _ =>
    let fs1 := appendFileSync fs batchFilePath (batchBlock subject chapterName grade first)
    .ok (writeFileSync fs1 outputFilePath
      (stringify2 (chapterOutput subject chapterName grade first)))

/-- The `for (const chapterFile of chapters)` loop of `processSyllabus`: the state of the
files when the loop ends, and the exception that ended it, if one did. -/
def chapterLoop (subject grade outputSubjectFolderPath batchSubjectFolderPath : String) :
    List ChapterFile → FS → FS × Option JsError
  | [], fs => (fs, none)
  | chapterFile :: rest, fs =>
    let chapterName := parseName chapterFile.file
    let outputFilePath := pathJoin outputSubjectFolderPath (chapterName ++ ".json")
    let batchFilePath :=
      pathJoin batchSubjectFolderPath ("batch_" ++ chapterName ++ ".jsonl")
    match chapterFile.data with
    | none => (fs, some .syntaxError)
    | some chapterData =>
      match processChapter subject chapterData chapterName grade outputFilePath
          batchFilePath fs with
      | .error e => (fs, some e)
      | .ok fs1 =>
        chapterLoop subject grade outputSubjectFolderPath batchSubjectFolderPath rest fs1

/-- The `for (const subject of subjects)` loop of `processSyllabus`. -/
def subjectLoop (outputFolderPath batchFolderPath grade : String) :
    SyllabusTree → FS → FS × Option JsError
  | [], fs => (fs, none)
  | dir :: rest, fs =>
    match chapterLoop dir.subject grade (pathJoin outputFolderPath dir.subject)
        (pathJoin batchFolderPath dir.subject) dir.chapters fs with
    | (fs1, some e) => (fs1, some e)
    | (fs1, none) => subjectLoop outputFolderPath batchFolderPath grade rest fs1

/-- `processSyllabus(folderPath, outputFolderPath, batchFolderPath, grade)` on the
listing `tree` of `folderPath`: the files it leaves, and the exception its `catch`
logged, if any. -/
def processSyllabus (tree : SyllabusTree) (outputFolderPath batchFolderPath grade : String)
    (fs : FS) : FS × Option JsError :=
  subjectLoop outputFolderPath batchFolderPath grade tree fs

end Batch

/-! ## Synchronous mode (`index.js`) -/

namespace Index

/-- `generateDynamicPrompt(subject, chapter, topic)`: the template literal, whose grade
slot is `subject === "11" ? "11th" : "12th"`. -/
def generateDynamicPrompt (subject chapter topic : String) : String :=
  "\n"
    ++ "As an expert educator in "
    ++ subject
    ++ ", provide a comprehensive explanation of the topic \""
    ++ topic
    ++ "\" from the chapter \""
    ++ chapter
    ++ "\". Your explanation should:\n"
    ++ "\n"
    ++ "1. Start with a clear, concise definition or introduction to the topic.\n"
    ++ "2. Explain the key concepts, principles, or theories related to this topic.\n"
    ++ "3. Provide relevant examples, analogies, or real-world applications to illustrate the topic.\n"
    ++ "4. If applicable, include any important formulas, equations, or diagrams (described in text).\n"
    ++ "5. Discuss any historical context or significant developments related to this topic.\n"
    ++ "6. Highlight the importance or relevance of this topic within the broader subject area.\n"
    ++ "7. Address common misconceptions or difficulties students might have with this topic.\n"
    ++ "8. Give diagrams in Markdown format as much as possible.\n"
    ++ "\n"
    ++ "Your explanation should be suitable for a "
    ++ (if subject = "11" then "11th" else "12th")
    ++ " grade student, balancing depth of content with clarity of explanation. Aim for an engaging and informative response.\n"

/-- The argument of `openai.chat.completions.create`: the model and the prompt, which is
the text of the only part of the only (user) message. -/
structure Request where
  model : String
  prompt : String
deriving DecidableEq

/-- The response object of a completed call, as far as the script reads it: for each
element of `choices` its `message.content`, a string or `null` (`none`). -/
abbrev Response := List (Option String)

/-- How the promise of a remote call settles. -/
inductive Settled where
  | fulfilled (response : Response)
  | rejected
deriving DecidableEq

/-- An asynchronous computation. It has returned `a`; or it calls
`openai.chat.completions.create` with the request `req`, which starts the remote call and
returns at once the promise of its response, the number handed to `k`; or it is at the
`await` of a promise and goes on with `k` once the call of that promise has settled. -/
inductive Prog (α : Type) where
  | done (a : α)
  | call (req : Request) (k : Nat → Prog α)
  | await (promise : Nat) (k : Settled → Prog α)

/-- Sequencing of asynchronous computations (`await` of an async function call). -/
def Prog.bind {α β : Type} : Prog α → (α → Prog β) → Prog β
  | .done a, f => f a
  | .call req k, f => .call req (fun promise => (k promise).bind f)
  | .await promise k, f => .await promise (fun s => (k s).bind f)

/-- Run a computation alone to its end against the remote service: the promise of the
call number `i` of the run is `i`, `env i` is how that call settles, and `n` is the number
of calls made so far. The result comes with the requests issued, in order. -/
def Prog.run {α : Type} : Prog α → (Nat → Settled) → Nat → α × List Request
  | .done a, _, _ => (a, [])
  | .call req k, env, n =>
    let r := (k n).run env (n + 1)
    (r.1, req :: r.2)
  | .await promise k, env, n => (k (env promise)).run env n

/-- The object `generateAIContent` returns. -/
structure Generated where
  content : Option String
  fullResponse : Option String
deriving DecidableEq

/-- `generateAIContent(subject, chapter, topic)`. The remote call is started and its
promise awaited at once. That `await` stands
before the `try`, so a rejected call throws out of the function; the `try` covers the
reads of `response.choices[0].message.content`, which throw a `TypeError` when `choices`
is empty, and its `catch` returns the placeholder. -/
def generateAIContent (subject chapter topic : String) : Prog (Except JsError Generated) :=
  .call ⟨"gpt-4o-mini", generateDynamicPrompt subject chapter topic⟩ fun response =>
    .await response fun settled =>
      match settled with
      | .rejected => .done (.error .remoteError)
      | .fulfilled [] =>
        .done (.ok ⟨some ("Error generating content for topic: " ++ topic), none⟩)
      | .fulfilled (content :: _) => .done (.ok ⟨content, content⟩)

/-- The template literal with the single slot `content`: the string itself, or `null`
spelled out. -/
def contentText : Option String → String
  | some s => s
  | none => "null"

/-- `fullResponse ? fullResponse.toString() : "No response"`: `null` and the empty string
are falsy. -/
def fullResponseText : Option String → String
  | some s => if s = "" then "No response" else s
  | none => "No response"

/-- The variables the topic loop of `processChapter` updates. -/
structure LoopState where
  topics : List Json
  responseOutput : List Json

/-- The `for (const topic of chapterData[0].topics)` loop of `processChapter`: each turn
awaits `generateAIContent`, then pushes `{ name, content }` and `{ topic, fullResponse }`.
An exception of `generateAIContent` ends the loop and the function. -/
def topicLoop (subject chapter : String) : List String → LoopState →
    Prog (Except JsError LoopState)
  | [], st => .done (.ok st)
  | topic :: rest, st =>
    (generateAIContent subject chapter topic).bind fun r =>
      match r with
      | .error e => .done (.error e)
      | .ok g =>
        topicLoop subject chapter rest
          { topics := st.topics ++
              [.obj [("name", .str topic), ("content", .str (contentText g.content))]]
            responseOutput := st.responseOutput ++
              [.obj [("topic", .str topic),
                ("fullResponse", .str (fullResponseText g.fullResponse))]] }

/-- `processChapter(subject, chapterData, chapterName, outputFilePath, responseFilePath)`.
Reading `chapterData[0].chapter` throws a `TypeError` when the array is empty. The two
files are written after the loop. -/
def processChapter (subject : String) (chapterData : ChapterData)
    (_chapterName outputFilePath responseFilePath : String) (fs : FS) :
    Prog (Except JsError FS) :=
  match chapterData with
  | [] => .done (.error .typeError)
  | first :: _ =>
    (topicLoop subject first.chapter first.topics ⟨[], []⟩).bind fun r =>
      match r with
      | .error e => .done (.error e)
      | .ok st =>
        let fs1 := writeFileSync fs outputFilePath
          (stringify2 (.obj [("chapter", .str first.chapter), ("topics", .arr st.topics)]))
        .done (.ok (writeFileSync fs1 responseFilePath (stringify2 (.arr st.responseOutput))))

/-- The arguments a closure of the queue passes to `processChapter`. -/
structure Task where
  subject : String
  chapterData : ChapterData
  chapterName : String
  outputFilePath : String
  responseFilePath : String
deriving DecidableEq

/-- The `for (const chapterFile of chapters)` loop of `processSyllabus`: it computes the
two paths of the chapter, parses the file and pushes the task on the queue. -/
def chapterLoop (subject outputSubjectFolderPath responseSubjectFolderPath : String) :
    List ChapterFile → List Task → Except JsError (List Task)
  | [], queue => .ok queue
  | chapterFile :: rest, queue =>
    let chapterName := parseName chapterFile.file
    let outputFilePath := pathJoin outputSubjectFolderPath (chapterName ++ ".json")
    let responseFilePath :=
      pathJoin responseSubjectFolderPath
        ("resp" ++ sliceLast chapterName ++ ".json")
    match chapterFile.data with
    | none => .error .syntaxError
    | some chapterData =>
      chapterLoop subject outputSubjectFolderPath responseSubjectFolderPath rest
        (queue ++ [⟨subject, chapterData, chapterName, outputFilePath, responseFilePath⟩])

/-- The `for (const subject of subjects)` loop of `processSyllabus`. -/
def subjectLoop (outputFolderPath responseFolderPath : String) :
    SyllabusTree → List Task → Except JsError (List Task)
  | [], queue => .ok queue
  | dir :: rest, queue =>
    match chapterLoop dir.subject (pathJoin outputFolderPath dir.subject)
        (pathJoin responseFolderPath dir.subject) dir.chapters queue with
    | .error e => .error e
    | .ok queue1 => subjectLoop outputFolderPath responseFolderPath rest queue1

/-- The `for (const task of queue) await task()` loop of `processSyllabus`: the files when
the loop ends and the exception that ended it, if one did. -/
def runQueue : List Task → FS → Prog (FS × Option JsError)
  | [], fs => .done (fs, none)
  | task :: rest, fs =>
    (processChapter task.subject task.chapterData task.chapterName task.outputFilePath
      task.responseFilePath fs).bind fun r =>
      match r with
      | .error e => .done (fs, some e)
      | .ok fs1 => runQueue rest fs1

/-- `processSyllabus(folderPath, outputFolderPath, responseFolderPath)` on the listing
`tree` of `folderPath`: the files it leaves, and the exception its `catch` logged, if
any. -/
def processSyllabus (tree : SyllabusTree) (outputFolderPath responseFolderPath : String)
    (fs : FS) : Prog (FS × Option JsError) :=
  match subjectLoop outputFolderPath responseFolderPath tree [] with
  | .error e => .done (fs, some e)
  | .ok queue => runQueue queue fs

end Index

/-! ## Predicates used in the statements -/

/-- The string has no line-feed character. -/
def NoNewline (s : String) : Prop := '\n' ∉ s.data

instance (s : String) : Decidable (NoNewline s) :=
  inferInstanceAs (Decidable ('\n' ∉ s.data))

/-- The text `needle` occurs in `hay` as a contiguous run of characters. -/
def embeds (needle hay : String) : Prop := needle.data <:+: hay.data

/-- Boolean test that the first list starts the second. -/
def startsWithB : List Char → List Char → Bool
  | [], _ => true
  | _ :: _, [] => false
  | a :: as, b :: bs => a == b && startsWithB as bs

/-- Boolean test that the first list occurs in the second. -/
def occursB (needle : List Char) : List Char → Bool
  | [] => needle.isEmpty
  | b :: bs => startsWithB needle (b :: bs) || occursB needle bs

/-- The text made of the given lines, each followed by a line feed. -/
def linesBlock : List String → String
  | [] => ""
  | l :: ls => l ++ "\n" ++ linesBlock ls

/-- The member `key` of an object (`undefined`, here `none`, when there is none). -/
def Json.member (key : String) : Json → Option Json
  | .obj kvs => (kvs.find? (fun kv => kv.1 == key)).map (fun kv => kv.2)
  | _ => none

/-- The `custom_id` of a batch record, when it is a string. -/
def customIdOf (record : Json) : Option String :=
  match record.member "custom_id" with
  | some (.str s) => some s
  | _ => none

/-- The number a list of decimal digits denotes, continuing from `acc`. -/
def decodeDigits (ds : List Char) (acc : Nat) : Nat :=
  ds.foldl (fun a c => a * 10 + (c.toNat - 48)) acc

/-- The `content` of the user message (the second message) of a batch record. -/
def userMessageOf (record : Json) : Option String :=
  match record.member "body" with
  | some body =>
    match body.member "messages" with
    | some (.arr [_, user]) =>
      match user.member "content" with
      | some (.str s) => some s
      | _ => none
    | _ => none
  | none => none

/-- The lines a chapter is expected to add to its job file: for the topic number `i`
(from 1) the serialised record of the topic under the custom id `request-i`. -/
def Batch.expectedLines (subject chapterName grade : String) (topics : List String) :
    List String :=
  (topics.enumFrom 1).map (fun p =>
    stringify (Batch.createBatchRequest subject chapterName p.2
      ("request-" ++ toString p.1) grade))

/-- A subject whose first chapter file holds the empty array and whose second chapter
file is well formed. -/
def treeMalformedFirst : SyllabusTree :=
  [⟨"physics",
    [⟨"chapter1.json", some []⟩,
     ⟨"chapter2.json", some [⟨"Motion", ["Speed", "Acceleration"]⟩]⟩]⟩]

/-- A subject with one chapter file `chapter1.json` whose title is `Kinematics`. -/
def treeKinematics : SyllabusTree :=
  [⟨"physics", [⟨"chapter1.json", some [⟨"Kinematics", ["Speed"]⟩]⟩]⟩]

/-! ## Synchronous mode: the whole script and the statements' vocabulary -/

/-- One of the two top-level `processSyllabus(...)` calls of `index.js`: the cohort `g`
(`"11"` or `"12"`), with the output and response roots `content/g` and `response/g` under
`dirname`, on the listing `tree` of `syllabus/g`. -/
def Index.cohortRun (dirname g : String) (tree : SyllabusTree) (fs : FS) :
    Index.Prog (FS × Option JsError) :=
  Index.processSyllabus tree (pathJoin (pathJoin dirname "content") g)
    (pathJoin (pathJoin dirname "response") g) fs

/-- The request of the remote call for a topic of a chapter of a subject. -/
def Index.requestFor (x : String × String × String) : Index.Request :=
  ⟨"gpt-4o-mini", Index.generateDynamicPrompt x.1 x.2.1 x.2.2⟩

/-- The topics of a chapter file in input order, each with the subject and the chapter
title. -/
def Index.topicsOfChapter (subject : String) (chapterFile : ChapterFile) :
    List (String × String × String) :=
  match chapterFile.data with
  | some (first :: _) => first.topics.map (fun topic => (subject, first.chapter, topic))
  | _ => []

/-- The topics of the chapter files of a subject, in listing order. -/
def Index.topicsOfChapters (subject : String) :
    List ChapterFile → List (String × String × String)
  | [] => []
  | chapterFile :: rest =>
    Index.topicsOfChapter subject chapterFile ++ Index.topicsOfChapters subject rest

/-- The topics of a syllabus tree: subjects in listing order, chapter files in listing
order, topics in input order. -/
def Index.topicsOfTree : SyllabusTree → List (String × String × String)
  | [] => []
  | dir :: rest => Index.topicsOfChapters dir.subject dir.chapters ++ Index.topicsOfTree rest

/-- The requests the tasks of a queue are expected to issue, task after task. -/
def Index.requestsOfQueue : List Index.Task → List Index.Request
  | [] => []
  | task :: rest =>
    (match task.chapterData with
      | first :: _ =>
        first.topics.map (fun topic => Index.requestFor (task.subject, first.chapter, topic))
      | [] => [])
    ++ Index.requestsOfQueue rest

/-- The chapter file parses to an array with a first element. -/
def ChapterFile.wellFormed (chapterFile : ChapterFile) : Bool :=
  match chapterFile.data with
  | some (_ :: _) => true
  | _ => false

/-- Every chapter file of the tree parses to an array with a first element. -/
def WellFormed (tree : SyllabusTree) : Prop :=
  ∀ dir ∈ tree, ∀ chapterFile ∈ dir.chapters, chapterFile.wellFormed = true

instance (tree : SyllabusTree) : Decidable (WellFormed tree) :=
  inferInstanceAs
    (Decidable (∀ dir ∈ tree, ∀ chapterFile ∈ dir.chapters, chapterFile.wellFormed = true))

/-- The subject `physics` with the chapter `Motion` (two topics) and the chapter `Waves`
(one topic). -/
def treePhysics : SyllabusTree :=
  [⟨"physics",
    [⟨"chapter1.json", some [⟨"Motion", ["Speed", "Acceleration"]⟩]⟩,
     ⟨"chapter2.json", some [⟨"Waves", ["Sound"]⟩]⟩]⟩]

/-- The subject `physics` with the chapter files `chapter1.json` and `chapter11.json`. -/
def treeElevenChapters : SyllabusTree :=
  [⟨"physics",
    [⟨"chapter1.json", some [⟨"Motion", ["Speed"]⟩]⟩,
     ⟨"chapter11.json", some [⟨"Waves", ["Sound"]⟩]⟩]⟩]

/-- A remote service whose first call is rejected and whose later calls are answered. -/
def firstCallRejected : Nat → Index.Settled :=
  fun i => if i = 0 then .rejected else .fulfilled [some "text"]

/-- A remote service that answers the call number `i` with the text `reply i`. -/
def numberedReplies : Nat → Index.Settled :=
  fun i => .fulfilled [some ("reply " ++ toString i)]

/-- The subject `physics` with three chapter files, the second of which holds the empty
array. -/
def treeMalformedMiddle : SyllabusTree :=
  [⟨"physics",
    [⟨"chapter1.json", some [⟨"Motion", ["Speed"]⟩]⟩,
     ⟨"chapter2.json", some []⟩,
     ⟨"chapter3.json", some [⟨"Waves", ["Sound"]⟩]⟩]⟩]

/-! ## The two concurrent invocations of the synchronous script

`index.js` calls `processSyllabus` twice at top level and awaits neither call, so the two
invocations are two threads of one run. A thread that runs goes on synchronously: a call
of `openai.chat.completions.create` starts a remote call, which is then in flight, and the
thread stops when it returns or reaches the `await` of a promise whose call has not
settled. A call in flight settles at any time. Which thread runs next and which call
settles next is up to the schedule: the bound below holds for every schedule. In
JavaScript a thread also hands over at the `await` of a promise that has settled; it then
stops earlier than here, before the call it would start next, which amounts to running
that thread later in the schedule. Each thread carries its own view of the files: the two
cohorts write under different roots, and nothing below depends on the files. -/

/-- What happens next in a run: the thread `thread` runs until it returns or has to wait,
or the remote call of the promise `promise` settles. -/
inductive Index.Action where
  | run (thread : Nat)
  | settle (promise : Nat) (how : Index.Settled)
deriving DecidableEq

/-- The state of a run: the threads, the calls that have settled and how, the number of
calls started so far (the next promise), and the calls in flight, each with its promise,
the thread that started it and its request. -/
structure Index.Machine (α : Type) where
  threads : List (Index.Prog α)
  results : List (Nat × Index.Settled)
  next : Nat
  inFlight : List (Nat × Nat × Index.Request)

/-- How the call of the promise has settled, if it has. -/
def Index.resultOf : List (Nat × Index.Settled) → Nat → Option Index.Settled
  | [], _ => none
  | (p, s) :: rest, promise => if p = promise then some s else Index.resultOf rest promise

/-- The thread runs synchronously: each `create` starts a call under the next promise, an
`await` of a settled promise goes on, and the thread stops when it has returned or awaits
a promise that has not settled. The result is the thread as it stops, the next promise
and the calls started on the way. -/
def Index.advance {α : Type} (thread : Nat) (results : List (Nat × Index.Settled)) :
    Index.Prog α → Nat → Index.Prog α × Nat × List (Nat × Nat × Index.Request)
  | .done a, next => (.done a, next, [])
  | .call req k, next =>
    let r := Index.advance thread results (k next) (next + 1)
    (r.1, r.2.1, (next, thread, req) :: r.2.2)
  | .await promise k, next =>
    match Index.resultOf results promise with
    | some s => Index.advance thread results (k s) next
    | none => (.await promise k, next, [])

/-- One action of a run. A thread that does not exist does not run, and only a call in
flight settles. -/
def Index.Machine.step {α : Type} (m : Index.Machine α) : Index.Action → Index.Machine α
  | .run thread =>
    match m.threads.get? thread with
    | none => m
    | some p =>
      { threads := m.threads.set thread (Index.advance thread m.results p m.next).1
        results := m.results
        next := (Index.advance thread m.results p m.next).2.1
        inFlight := m.inFlight ++ (Index.advance thread m.results p m.next).2.2 }
  | .settle promise how =>
    if m.inFlight.any (fun c => c.1 == promise) then
      { threads := m.threads
        results := (promise, how) :: m.results
        next := m.next
        inFlight := m.inFlight.filter (fun c => c.1 != promise) }
    else m

/-- The state of a run of the script after the actions of the schedule: thread 0 is the
invocation for the cohort `11`, thread 1 the invocation for the cohort `12`. The script
itself calls the first and then the second, which is the schedule `[run 0, run 1]`. -/
def Index.script (dirname : String) (tree11 tree12 : SyllabusTree) (fs : FS)
    (schedule : List Index.Action) : Index.Machine (FS × Option JsError) :=
  schedule.foldl Index.Machine.step
    { threads :=
        [Index.cohortRun dirname "11" tree11 fs, Index.cohortRun dirname "12" tree12 fs]
      results := []
      next := 0
      inFlight := [] }

/-- Those of the calls that the thread has started. -/
def Index.ownedBy (thread : Nat) (calls : List (Nat × Nat × Index.Request)) :
    List (Nat × Nat × Index.Request) :=
  calls.filter (fun c => c.2.1 == thread)

/-- The computation awaits each call at once: it has returned, or it starts a call,
awaits the promise of that call immediately and then goes on in the same way. -/
inductive Index.AwaitsEachCall {α : Type} : Index.Prog α → Prop where
  | done (a : α) : Index.AwaitsEachCall (.done a)
  | call (req : Index.Request) (k : Nat → Index.Settled → Index.Prog α) :
      (∀ promise s, Index.AwaitsEachCall (k promise s)) →
      Index.AwaitsEachCall (.call req (fun promise => .await promise (k promise)))

/-- A computation that starts two calls and only then awaits the first: the shape of
`Promise.all`, which `index.js` does not have. -/
def Index.startsTwoCalls : Index.Prog Unit :=
  .call ⟨"gpt-4o-mini", "first"⟩ fun first =>
    .call ⟨"gpt-4o-mini", "second"⟩ fun second =>
      .await first fun _ => .await second fun _ => .done ()

/-- The state of a thread in a run whose calls are awaited at once, given the calls in
flight and the settled calls: with no call of its own in flight, either the thread awaits
each call at once from here on, or it is at the `await` of a settled promise and does so
after it; or it is at the `await` of the promise of its only call in flight. -/
def Index.ThreadOk {α : Type} (inFlight : List (Nat × Nat × Index.Request))
    (results : List (Nat × Index.Settled)) (i : Nat) : Option (Index.Prog α) → Prop
  | none => Index.ownedBy i inFlight = []
  | some p =>
    (Index.ownedBy i inFlight = [] ∧ Index.AwaitsEachCall p)
    ∨ (∃ promise k, p = .await promise k ∧ (∀ s, Index.AwaitsEachCall (k s))
        ∧ ((∃ s, Index.resultOf results promise = some s ∧ Index.ownedBy i inFlight = [])
          ∨ (∃ req, Index.ownedBy i inFlight = [(promise, i, req)])))

/-- The invariant of a run: the promises of the calls in flight are below the next
promise and have not settled, no promise from the next one on has settled, and every
thread is in a state of `ThreadOk`. -/
def Index.Machine.Inv {α : Type} (m : Index.Machine α) : Prop :=
  (∀ c ∈ m.inFlight, c.1 < m.next ∧ Index.resultOf m.results c.1 = none)
  ∧ (∀ promise, m.next ≤ promise → Index.resultOf m.results promise = none)
  ∧ (∀ i, Index.ThreadOk m.inFlight m.results i (m.threads.get? i))

end SyllabusPipeline

/-! ## Facts about strings and serialisation -/

set_option maxRecDepth 100000

namespace SyllabusPipeline

theorem startsWithB_iff (xs ys : List Char) : startsWithB xs ys = true ↔ xs <+: ys := by
  induction xs generalizing ys with
  | nil => simp [startsWithB]
  | cons a as ih =>
    cases ys with
    | nil => simp [startsWithB]
    | cons b bs => simp [startsWithB, ih, List.cons_prefix_cons]

theorem occursB_iff (xs ys : List Char) : occursB xs ys = true ↔ xs <:+: ys := by
  induction ys with
  | nil => cases xs <;> simp [occursB]
  | cons b bs ih =>
    simp only [occursB, Bool.or_eq_true, startsWithB_iff, ih]
    exact (List.infix_cons_iff).symm

theorem embeds_iff (needle hay : String) :
    embeds needle hay ↔ occursB needle.data hay.data = true :=
  (occursB_iff _ _).symm

theorem noNewline_append (a b : String) : NoNewline (a ++ b) ↔ NoNewline a ∧ NoNewline b := by
  simp [NoNewline, String.data_append, not_or]

theorem noNewline_join (sep : String) (hsep : NoNewline sep) :
    ∀ xs : List String, (∀ x ∈ xs, NoNewline x) → NoNewline (join sep xs)
  | [], _ => by simp [join, NoNewline]
  | [x], h => by simpa [join] using h x (by simp)
  | x :: y :: rest, h => by
    have ih := noNewline_join sep hsep (y :: rest) (fun z hz => h z (by simp [hz]))
    simp only [join, noNewline_append]
    exact ⟨⟨h x (by simp), hsep⟩, ih⟩

theorem hexDigit_ne_newline (n : Nat) (h : n < 16) : hexDigit n ≠ '\n' := by
  interval_cases n <;> decide

theorem noNewline_quoteChar (c : Char) : NoNewline (quoteChar c) := by
  unfold quoteChar
  split_ifs with h1 h2 h3 h4 h5 h6 h7 h8
  any_goals decide
  · have ha : c.toNat / 16 < 16 := by omega
    have hb : c.toNat % 16 < 16 := Nat.mod_lt _ (by decide)
    simp only [NoNewline, String.data_append, List.mem_append, not_or]
    refine ⟨by decide, ?_⟩
    simp only [List.mem_cons, List.mem_singleton, List.not_mem_nil, or_false, not_or]
    exact ⟨fun h => hexDigit_ne_newline _ ha h.symm, fun h => hexDigit_ne_newline _ hb h.symm⟩
  · have hd : (String.singleton c).data = [c] := rfl
    simp only [NoNewline, hd, List.mem_singleton]
    exact fun h => h3 h.symm

theorem noNewline_quoteChars : ∀ cs : List Char, NoNewline (quoteChars cs)
  | [] => by simp [quoteChars, NoNewline]
  | c :: cs => by
    simp only [quoteChars, noNewline_append]
    exact ⟨noNewline_quoteChar c, noNewline_quoteChars cs⟩

theorem noNewline_quote (s : String) : NoNewline (quote s) := by
  simp only [quote, noNewline_append]
  exact ⟨⟨by decide, noNewline_quoteChars _⟩, by decide⟩

theorem digitChar_ne_newline (k : Nat) (h : k < 10) : Nat.digitChar k ≠ '\n' := by
  interval_cases k <;> decide

theorem toDigitsCore_ne_newline (fuel : Nat) :
    ∀ (n : Nat) (ds : List Char), '\n' ∉ ds → '\n' ∉ Nat.toDigitsCore 10 fuel n ds := by
  induction fuel with
  | zero => intro n ds h; simpa [Nat.toDigitsCore] using h
  | succ f ih =>
    intro n ds h
    have hd : '\n' ∉ Nat.digitChar (n % 10) :: ds := by
      simp only [List.mem_cons, not_or]
      exact ⟨fun e => digitChar_ne_newline _ (Nat.mod_lt _ (by decide)) e.symm, h⟩
    simp only [Nat.toDigitsCore]
    split_ifs
    · exact hd
    · exact ih _ _ hd

theorem noNewline_natToString (n : Nat) : NoNewline (toString n) := by
  show '\n' ∉ (Nat.repr n).data
  simp only [Nat.repr, List.asString]
  exact toDigitsCore_ne_newline _ _ _ (by simp)

mutual
theorem noNewline_serialize : ∀ (indent : String) (v : Json), NoNewline (serialize "" indent v)
  | _, .str s => by simp only [serialize]; exact noNewline_quote s
  | _, .num n => by simp only [serialize]; exact noNewline_natToString n
  | _, .bool b => by cases b <;> simp only [serialize] <;> decide
  | _, .arr [] => by simp only [serialize]; decide
  | indent, .arr (x :: rest) => by
    simp only [serialize, if_true, noNewline_append]
    exact ⟨⟨by decide, noNewline_join _ (by decide) _
      (noNewline_serializeElems (indent ++ "") (x :: rest))⟩, by decide⟩
  | _, .obj [] => by simp only [serialize]; decide
  | indent, .obj (kv :: rest) => by
    simp only [serialize, if_true, noNewline_append]
    exact ⟨⟨by decide, noNewline_join _ (by decide) _
      (noNewline_serializeMembers (indent ++ "") (kv :: rest))⟩, by decide⟩
theorem noNewline_serializeElems : ∀ (indent : String) (xs : List Json),
    ∀ s ∈ serializeElems "" indent xs, NoNewline s
  | _, [] => by simp [serializeElems]
  | indent, x :: xs => by
    intro s hs
    simp only [serializeElems, List.mem_cons] at hs
    rcases hs with rfl | hs
    · exact noNewline_serialize indent x
    · exact noNewline_serializeElems indent xs s hs
theorem noNewline_serializeMembers : ∀ (indent : String) (kvs : List (String × Json)),
    ∀ s ∈ serializeMembers "" indent kvs, NoNewline s
  | _, [] => by simp [serializeMembers]
  | indent, (k, v) :: kvs => by
    intro s hs
    simp only [serializeMembers, List.mem_cons] at hs
    rcases hs with rfl | hs
    · simp only [if_true, noNewline_append]
      exact ⟨⟨⟨noNewline_quote k, by decide⟩, by decide⟩, noNewline_serialize indent v⟩
    · exact noNewline_serializeMembers indent kvs s hs
end

theorem noNewline_stringify (v : Json) : NoNewline (stringify v) :=
  noNewline_serialize "" v

theorem digitChar_toNat (k : Nat) (h : k < 10) : (Nat.digitChar k).toNat - 48 = k := by
  interval_cases k <;> decide

theorem decodeDigits_toDigitsCore (fuel : Nat) :
    ∀ (n : Nat) (ds : List Char), n < fuel →
      decodeDigits (Nat.toDigitsCore 10 fuel n ds) 0 = decodeDigits ds n := by
  induction fuel with
  | zero => intro n ds h; omega
  | succ f ih =>
    intro n ds h
    have hk := digitChar_toNat (n % 10) (Nat.mod_lt _ (by decide))
    simp only [Nat.toDigitsCore]
    split_ifs with h0
    · have h1 : n % 10 = n := by omega
      rw [h1] at hk
      simp only [decodeDigits, List.foldl_cons, Nat.zero_mul, Nat.zero_add, h1, hk]
    · rw [ih (n / 10) _ (by omega)]
      have : n / 10 * 10 + n % 10 = n := by omega
      simp [decodeDigits, hk, this]

theorem decodeDigits_toString (n : Nat) : decodeDigits (toString n).data 0 = n := by
  show decodeDigits (Nat.repr n).data 0 = n
  simp only [Nat.repr, List.asString, Nat.toDigits]
  rw [decodeDigits_toDigitsCore _ _ _ (Nat.lt_succ_self n)]
  rfl

theorem natToString_injective : Function.Injective (fun n : Nat => toString n) := by
  intro a b h
  have := congrArg (fun s : String => decodeDigits s.data 0) h
  simpa [decodeDigits_toString] using this

theorem string_append_left_cancel (a x y : String) (h : a ++ x = a ++ y) : x = y := by
  have := congrArg String.data h
  simp only [String.data_append, List.append_cancel_left_eq] at this
  exact String.ext this

theorem requestId_injective :
    Function.Injective (fun i : Nat => "request-" ++ toString (i + 1)) := by
  intro a b h
  have := natToString_injective (string_append_left_cancel _ _ _ h)
  omega

/-! ## Facts about the file operations -/

theorem readFile_writeFileSync_same (fs : FS) (p data : String) :
    readFile (writeFileSync fs p data) p = some data := by
  induction fs with
  | nil => simp [writeFileSync, readFile]
  | cons e rest ih =>
    obtain ⟨q, c⟩ := e
    by_cases h : q = p <;> simp [writeFileSync, readFile, h, ih]

theorem readFile_writeFileSync_other (fs : FS) (p q data : String) (hne : q ≠ p) :
    readFile (writeFileSync fs p data) q = readFile fs q := by
  induction fs with
  | nil => simp [writeFileSync, readFile, Ne.symm hne]
  | cons e rest ih =>
    obtain ⟨r, c⟩ := e
    by_cases h : r = p
    · subst h
      simp [writeFileSync, readFile, Ne.symm hne]
    · by_cases h2 : r = q
      · subst h2
        simp [writeFileSync, readFile, h]
      · simp [writeFileSync, readFile, h, h2, ih]

theorem readFile_appendFileSync_same (fs : FS) (p data : String) :
    readFile (appendFileSync fs p data) p = some ((readFile fs p).getD "" ++ data) := by
  induction fs with
  | nil => simp [appendFileSync, readFile]
  | cons e rest ih =>
    obtain ⟨q, c⟩ := e
    by_cases h : q = p <;> simp [appendFileSync, readFile, h, ih]

theorem readFile_appendFileSync_other (fs : FS) (p q data : String) (hne : q ≠ p) :
    readFile (appendFileSync fs p data) q = readFile fs q := by
  induction fs with
  | nil => simp [appendFileSync, readFile, Ne.symm hne]
  | cons e rest ih =>
    obtain ⟨r, c⟩ := e
    by_cases h : r = p
    · subst h
      simp [appendFileSync, readFile, Ne.symm hne]
    · by_cases h2 : r = q
      · subst h2
        simp [appendFileSync, readFile, h]
      · simp [appendFileSync, readFile, h, h2, ih]

/-! ## Batch mode: the topic loop -/

theorem Batch.topicLoop_eq (subject chapterName grade : String) :
    ∀ (ts : List String) (st : Batch.LoopState),
      Batch.topicLoop subject chapterName grade ts st =
        { batchRequests := st.batchRequests ++
            (ts.enumFrom st.customIdCounter).map (fun p =>
              Batch.createBatchRequest subject chapterName p.2
                ("request-" ++ toString p.1) grade)
          topics := st.topics ++ ts.map (fun t => Json.obj [("topic", Json.str t)])
          customIdCounter := st.customIdCounter + ts.length } := by
  intro ts
  induction ts with
  | nil => intro st; simp [Batch.topicLoop]
  | cons t rest ih =>
    intro st
    simp only [Batch.topicLoop, ih, List.enumFrom, List.map_cons, List.append_assoc,
      List.singleton_append, List.length_cons]
    congr 1
    omega

theorem Batch.batchRequests_eq (subject chapterName grade : String) (first : ChapterElem) :
    Batch.batchRequests subject chapterName grade first =
      (first.topics.enumFrom 1).map (fun p =>
        Batch.createBatchRequest subject chapterName p.2 ("request-" ++ toString p.1) grade) := by
  simp [Batch.batchRequests, Batch.topicLoop_eq]

theorem Batch.chapterOutput_eq (subject chapterName grade : String) (first : ChapterElem) :
    Batch.chapterOutput subject chapterName grade first =
      .obj [("chapter", .str first.chapter),
        ("topics", .arr (first.topics.map (fun t => Json.obj [("topic", Json.str t)])))] := by
  simp [Batch.chapterOutput, Batch.topicLoop_eq]

theorem customIdOf_createBatchRequest (subject chapter topic customId grade : String) :
    customIdOf (Batch.createBatchRequest subject chapter topic customId grade) = some customId := by
  simp [customIdOf, Batch.createBatchRequest, Json.member]

theorem enumFrom_map_fst_eq (f : Nat → String) :
    ∀ (ts : List String) (k : Nat),
      (ts.enumFrom k).map (fun p => f p.1) = (List.range ts.length).map (fun i => f (k + i))
  | [], _ => by simp
  | t :: rest, k => by
    simp only [List.enumFrom, List.map_cons, List.length_cons, List.range_succ_eq_map,
      List.map_map]
    rw [enumFrom_map_fst_eq f rest (k + 1)]
    simp only [Nat.add_zero, List.cons.injEq, true_and]
    apply List.map_congr_left
    intro i _
    simp only [Function.comp]
    congr 1
    omega

/-! ## Batch mode: the loops over chapters and subjects -/

theorem Batch.chapterLoop_append (subject grade o b : String) :
    ∀ (pre post : List ChapterFile) (fs : FS),
      Batch.chapterLoop subject grade o b (pre ++ post) fs =
        match Batch.chapterLoop subject grade o b pre fs with
        | (fs1, some e) => (fs1, some e)
        | (fs1, none) => Batch.chapterLoop subject grade o b post fs1 := by
  intro pre
  induction pre with
  | nil => intro post fs; simp [Batch.chapterLoop]
  | cons cf rest ih =>
    intro post fs
    simp only [List.cons_append, Batch.chapterLoop]
    cases cf.data with
    | none => simp
    | some chapterData =>
      simp only
      cases Batch.processChapter subject chapterData (parseName cf.file) grade
          (pathJoin o (parseName cf.file ++ ".json"))
          (pathJoin b ("batch_" ++ parseName cf.file ++ ".jsonl")) fs with
      | error e => simp
      | ok fs1 => simp only; exact ih post fs1

theorem Batch.subjectLoop_append (o b grade : String) :
    ∀ (pre post : SyllabusTree) (fs : FS),
      Batch.subjectLoop o b grade (pre ++ post) fs =
        match Batch.subjectLoop o b grade pre fs with
        | (fs1, some e) => (fs1, some e)
        | (fs1, none) => Batch.subjectLoop o b grade post fs1 := by
  intro pre
  induction pre with
  | nil => intro post fs; simp [Batch.subjectLoop]
  | cons dir rest ih =>
    intro post fs
    simp only [List.cons_append, Batch.subjectLoop]
    rcases h : Batch.chapterLoop dir.subject grade (pathJoin o dir.subject)
        (pathJoin b dir.subject) dir.chapters fs with ⟨fs1, _ | e⟩
    · simp only; exact ih post fs1
    · simp

theorem Batch.chapterLoop_malformed (subject grade o b : String) (bad : ChapterFile)
    (post : List ChapterFile) (fs : FS) (hbad : bad.data = none ∨ bad.data = some []) :
    (Batch.chapterLoop subject grade o b (bad :: post) fs).1 = fs ∧
      (Batch.chapterLoop subject grade o b (bad :: post) fs).2 ≠ none := by
  rcases hbad with h | h <;> simp [Batch.chapterLoop, h, Batch.processChapter]

theorem Batch.subjectLoop_malformed (o b grade subject : String) (pre post : List ChapterFile)
    (bad : ChapterFile) (after : SyllabusTree) (fs : FS)
    (hbad : bad.data = none ∨ bad.data = some []) :
    (Batch.subjectLoop o b grade (⟨subject, pre ++ bad :: post⟩ :: after) fs).1
        = (Batch.subjectLoop o b grade [⟨subject, pre⟩] fs).1
      ∧ (Batch.subjectLoop o b grade (⟨subject, pre ++ bad :: post⟩ :: after) fs).2 ≠ none := by
  simp only [Batch.subjectLoop]
  rw [Batch.chapterLoop_append]
  rcases Batch.chapterLoop subject grade (pathJoin o subject) (pathJoin b subject) pre fs
    with ⟨fs1, _ | e⟩
  · have hm := Batch.chapterLoop_malformed subject grade (pathJoin o subject)
      (pathJoin b subject) bad post fs1 hbad
    simp only
    generalize Batch.chapterLoop subject grade (pathJoin o subject) (pathJoin b subject)
      (bad :: post) fs1 = x at hm
    obtain ⟨fs2, _ | e⟩ := x
    · exact absurd rfl hm.2
    · simp only at hm ⊢
      exact ⟨hm.1, by simp⟩
  · simp

theorem join_newline_eq_linesBlock : ∀ (x : String) (xs : List String),
    join "\n" (x :: xs) ++ "\n" = linesBlock (x :: xs)
  | x, [] => by simp [join, linesBlock]
  | x, y :: rest => by
    have ih := join_newline_eq_linesBlock y rest
    simp only [join, linesBlock] at ih ⊢
    rw [← ih]
    simp [String.append_assoc]

/-! ## Batch mode: the claims -/

/-- C2: for every chapter with N topics, the custom ids of the batch records that
batch-mode `processChapter` builds are `request-1`, ..., `request-N` in topic order, hence
pairwise distinct; and whatever files earlier chapters left (`fs`), the job-file block
`processChapter` appends is made of exactly these records, so the numbering restarts at 1
for each chapter. -/
theorem C2_custom_ids_sequential (subject chapterName grade outputFilePath batchFilePath : String)
    (first : ChapterElem) (more : ChapterData) (fs : FS) :
    (Batch.batchRequests subject chapterName grade first).map customIdOf
        = (List.range first.topics.length).map (fun i => some ("request-" ++ toString (i + 1)))
      ∧ ((Batch.batchRequests subject chapterName grade first).map customIdOf).Nodup
      ∧ Batch.processChapter subject (first :: more) chapterName grade outputFilePath
          batchFilePath fs
        = .ok (writeFileSync
            (appendFileSync fs batchFilePath
              (join "\n" ((Batch.batchRequests subject chapterName grade first).map stringify)
                ++ "\n"))
            outputFilePath
            (stringify2 (Batch.chapterOutput subject chapterName grade first))) := by
  have hids : (Batch.batchRequests subject chapterName grade first).map customIdOf
      = (List.range first.topics.length).map
          (fun i => some ("request-" ++ toString (i + 1))) := by
    rw [Batch.batchRequests_eq, List.map_map]
    have h := enumFrom_map_fst_eq (fun k => "request-" ++ toString k) first.topics 1
    have h2 := congrArg (List.map some) h
    simp only [List.map_map] at h2
    rw [show (customIdOf ∘ fun p : Nat × String =>
          Batch.createBatchRequest subject chapterName p.2 ("request-" ++ toString p.1) grade)
        = (some ∘ fun p : Nat × String => "request-" ++ toString p.1) from by
          funext p; simp [customIdOf_createBatchRequest]]
    rw [h2]
    apply List.map_congr_left
    intro i _
    simp [Nat.add_comm]
  refine ⟨hids, ?_, rfl⟩
  rw [hids]
  refine List.Nodup.map ?_ (List.nodup_range _)
  intro a b h
  exact requestId_injective (Option.some.inj h)

/-- C4 (as stated, refuted): in `treeMalformedFirst` the first chapter file of the subject
holds `[]` and the second is well formed, yet batch-mode `processSyllabus` writes neither
the job file nor the content skeleton of the second chapter. -/
theorem C4_later_chapter_not_written :
    Batch.processSyllabus treeMalformedFirst "content/11" "batch/11" "11" []
        = ([], some JsError.typeError)
      ∧ readFile (Batch.processSyllabus treeMalformedFirst "content/11" "batch/11" "11" []).1
          "batch/11/physics/batch_chapter2.jsonl" = none
      ∧ readFile (Batch.processSyllabus treeMalformedFirst "content/11" "batch/11" "11" []).1
          "content/11/physics/chapter2.json" = none := by
  decide

/-- C4 (amended): in batch mode, when a chapter file is malformed (its text does not
parse, or it parses to the empty array), `processSyllabus` stops at that chapter: the
files it leaves are exactly the files left by processing what is listed before the
malformed chapter (the earlier subjects and the earlier chapters of its subject), and the
`catch` logs an error. The chapters and subjects listed after it are not processed. -/
theorem C4_stops_at_malformed (before after : SyllabusTree) (subject : String)
    (pre post : List ChapterFile) (bad : ChapterFile)
    (outputFolderPath batchFolderPath grade : String) (fs : FS)
    (hbad : bad.data = none ∨ bad.data = some []) :
    (Batch.processSyllabus (before ++ ⟨subject, pre ++ bad :: post⟩ :: after)
        outputFolderPath batchFolderPath grade fs).1
      = (Batch.processSyllabus (before ++ [⟨subject, pre⟩])
          outputFolderPath batchFolderPath grade fs).1
    ∧ (Batch.processSyllabus (before ++ ⟨subject, pre ++ bad :: post⟩ :: after)
        outputFolderPath batchFolderPath grade fs).2 ≠ none := by
  simp only [Batch.processSyllabus, Batch.subjectLoop_append]
  rcases Batch.subjectLoop outputFolderPath batchFolderPath grade before fs with ⟨fs0, _ | e⟩
  · exact Batch.subjectLoop_malformed outputFolderPath batchFolderPath grade subject pre post
      bad after fs0 hbad
  · simp

/-- Witness for `C4_stops_at_malformed`: a subject whose second chapter file holds `[]`,
between a well-formed first and third chapter. -/
theorem C4_stops_at_malformed_witness :
    ((ChapterFile.mk "chapter2.json" (some [])).data = none
        ∨ (ChapterFile.mk "chapter2.json" (some [])).data = some [])
    ∧ ((Batch.processSyllabus
          ([] ++ ⟨"physics",
            [⟨"chapter1.json", some [⟨"Motion", ["Speed"]⟩]⟩]
              ++ ⟨"chapter2.json", some []⟩
                :: [⟨"chapter3.json", some [⟨"Waves", ["Sound"]⟩]⟩]⟩ :: [])
          "content/11" "batch/11" "11" []).1
        = (Batch.processSyllabus
            ([] ++ [⟨"physics", [⟨"chapter1.json", some [⟨"Motion", ["Speed"]⟩]⟩]⟩])
            "content/11" "batch/11" "11" []).1
      ∧ (Batch.processSyllabus
          ([] ++ ⟨"physics",
            [⟨"chapter1.json", some [⟨"Motion", ["Speed"]⟩]⟩]
              ++ ⟨"chapter2.json", some []⟩
                :: [⟨"chapter3.json", some [⟨"Waves", ["Sound"]⟩]⟩]⟩ :: [])
          "content/11" "batch/11" "11" []).2 ≠ none) :=
  ⟨Or.inr rfl,
    C4_stops_at_malformed [] [] "physics" [⟨"chapter1.json", some [⟨"Motion", ["Speed"]⟩]⟩]
      [⟨"chapter3.json", some [⟨"Waves", ["Sound"]⟩]⟩] ⟨"chapter2.json", some []⟩
      "content/11" "batch/11" "11" [] (Or.inr rfl)⟩

theorem Batch.expectedLines_eq (subject chapterName grade : String) (first : ChapterElem) :
    (Batch.batchRequests subject chapterName grade first).map stringify
      = Batch.expectedLines subject chapterName grade first.topics := by
  simp [Batch.expectedLines, Batch.batchRequests_eq, List.map_map, Function.comp]

theorem Batch.expectedLines_ne_nil (subject chapterName grade : String) (topics : List String)
    (h : topics ≠ []) : Batch.expectedLines subject chapterName grade topics ≠ [] := by
  cases topics with
  | nil => exact absurd rfl h
  | cons t rest => simp [Batch.expectedLines, List.enumFrom]

/-- The two paths batch-mode `processSyllabus` computes for a chapter are different. -/
theorem Batch.paths_distinct (o b chapterName : String) :
    pathJoin o (chapterName ++ ".json") ≠ pathJoin b ("batch_" ++ chapterName ++ ".jsonl") := by
  intro h
  have h1 := congrArg (fun s : String => s.data.reverse.head?) h
  simp [pathJoin, String.data_append, List.reverse_append] at h1

/-- C5 (as stated, refuted): for a chapter with no topic (N = 0) a run of batch-mode
`processChapter` on a job file with content `P` leaves `P` followed by a line feed, not
`P` followed by a block of zero lines. -/
theorem C5_empty_chapter_appends_line_feed :
    ∃ fs1,
      Batch.processChapter "physics" [⟨"Motion", []⟩] "chapter1" "11"
          "content/11/physics/chapter1.json" "batch/11/physics/batch_chapter1.jsonl"
          [("batch/11/physics/batch_chapter1.jsonl", "P")] = .ok fs1
      ∧ readFile fs1 "batch/11/physics/batch_chapter1.jsonl" = some "P\n"
      ∧ readFile fs1 "batch/11/physics/batch_chapter1.jsonl"
          ≠ some ("P" ++ linesBlock (Batch.expectedLines "physics" "chapter1" "11" [])) :=
  ⟨_, rfl, by decide, by decide⟩

/-- C5 (amended): for every prior content `P` of the job file (the empty text when the
file does not exist yet) and every chapter with N ≥ 1 topics, the job file being another
file than the content file, one run of batch-mode `processChapter` leaves the job file
equal to `P` followed by a block of exactly N lines, each followed by a line feed, the
i-th line being the serialised record of the i-th topic under the custom id `request-i`
and holding no line feed itself; a second run on the same chapter leaves `P` followed by
that block twice. -/
theorem C5_job_file_grows (subject chapterName grade outputFilePath batchFilePath : String)
    (first : ChapterElem) (more : ChapterData) (fs : FS)
    (hN : first.topics ≠ []) (hpath : outputFilePath ≠ batchFilePath) :
    ∃ fs1 fs2,
      Batch.processChapter subject (first :: more) chapterName grade outputFilePath
          batchFilePath fs = .ok fs1
      ∧ Batch.processChapter subject (first :: more) chapterName grade outputFilePath
          batchFilePath fs1 = .ok fs2
      ∧ (Batch.expectedLines subject chapterName grade first.topics).length
          = first.topics.length
      ∧ (∀ line ∈ Batch.expectedLines subject chapterName grade first.topics, NoNewline line)
      ∧ readFile fs1 batchFilePath
          = some ((readFile fs batchFilePath).getD ""
              ++ linesBlock (Batch.expectedLines subject chapterName grade first.topics))
      ∧ readFile fs2 batchFilePath
          = some ((readFile fs batchFilePath).getD ""
              ++ linesBlock (Batch.expectedLines subject chapterName grade first.topics)
              ++ linesBlock (Batch.expectedLines subject chapterName grade first.topics)) := by
  have hblock : Batch.batchBlock subject chapterName grade first
      = linesBlock (Batch.expectedLines subject chapterName grade first.topics) := by
    have hne := Batch.expectedLines_ne_nil subject chapterName grade first.topics hN
    rw [Batch.batchBlock, Batch.expectedLines_eq]
    cases hl : Batch.expectedLines subject chapterName grade first.topics with
    | nil => exact absurd hl hne
    | cons x xs => exact join_newline_eq_linesBlock x xs
  have hread : ∀ fs0 : FS,
      readFile (writeFileSync
          (appendFileSync fs0 batchFilePath (Batch.batchBlock subject chapterName grade first))
          outputFilePath (stringify2 (Batch.chapterOutput subject chapterName grade first)))
        batchFilePath
      = some ((readFile fs0 batchFilePath).getD ""
          ++ linesBlock (Batch.expectedLines subject chapterName grade first.topics)) := by
    intro fs0
    rw [readFile_writeFileSync_other _ _ _ _ (Ne.symm hpath), readFile_appendFileSync_same,
      hblock]
  refine ⟨_, _, rfl, rfl, ?_, ?_, hread fs, ?_⟩
  · simp [Batch.expectedLines]
  · intro line hl
    simp only [Batch.expectedLines, List.mem_map] at hl
    obtain ⟨p, _, rfl⟩ := hl
    exact noNewline_stringify _
  · rw [hread, hread fs]
    simp

/-- Witness for `C5_job_file_grows`: the chapter `Motion` with two topics, on a job file
that already holds the text `P`. -/
theorem C5_job_file_grows_witness :
    (ChapterElem.mk "Motion" ["Speed", "Acceleration"]).topics ≠ []
    ∧ "content/11/physics/chapter1.json" ≠ "batch/11/physics/batch_chapter1.jsonl"
    ∧ ∃ fs1 fs2,
      Batch.processChapter "physics" [⟨"Motion", ["Speed", "Acceleration"]⟩] "chapter1" "11"
          "content/11/physics/chapter1.json" "batch/11/physics/batch_chapter1.jsonl"
          [("batch/11/physics/batch_chapter1.jsonl", "P")] = .ok fs1
      ∧ Batch.processChapter "physics" [⟨"Motion", ["Speed", "Acceleration"]⟩] "chapter1" "11"
          "content/11/physics/chapter1.json" "batch/11/physics/batch_chapter1.jsonl"
          fs1 = .ok fs2
      ∧ (Batch.expectedLines "physics" "chapter1" "11"
          (ChapterElem.mk "Motion" ["Speed", "Acceleration"]).topics).length
          = (ChapterElem.mk "Motion" ["Speed", "Acceleration"]).topics.length
      ∧ (∀ line ∈ Batch.expectedLines "physics" "chapter1" "11"
          (ChapterElem.mk "Motion" ["Speed", "Acceleration"]).topics, NoNewline line)
      ∧ readFile fs1 "batch/11/physics/batch_chapter1.jsonl"
          = some ((readFile [("batch/11/physics/batch_chapter1.jsonl", "P")]
                "batch/11/physics/batch_chapter1.jsonl").getD ""
              ++ linesBlock (Batch.expectedLines "physics" "chapter1" "11"
                  (ChapterElem.mk "Motion" ["Speed", "Acceleration"]).topics))
      ∧ readFile fs2 "batch/11/physics/batch_chapter1.jsonl"
          = some ((readFile [("batch/11/physics/batch_chapter1.jsonl", "P")]
                "batch/11/physics/batch_chapter1.jsonl").getD ""
              ++ linesBlock (Batch.expectedLines "physics" "chapter1" "11"
                  (ChapterElem.mk "Motion" ["Speed", "Acceleration"]).topics)
              ++ linesBlock (Batch.expectedLines "physics" "chapter1" "11"
                  (ChapterElem.mk "Motion" ["Speed", "Acceleration"]).topics)) :=
  ⟨by decide, by decide,
    C5_job_file_grows "physics" "chapter1" "11" "content/11/physics/chapter1.json"
      "batch/11/physics/batch_chapter1.jsonl" ⟨"Motion", ["Speed", "Acceleration"]⟩ []
      [("batch/11/physics/batch_chapter1.jsonl", "P")] (by decide) (by decide)⟩

/-- C9 (the code at the failing input): for the chapter file `chapter1.json` of subject
`physics`, whose content gives the title `Kinematics` and the topic `Speed`, the record
batch-mode `processSyllabus` writes for the topic has a user message that names the
chapter by the file stem `chapter1`; the title `Kinematics` occurs nowhere in it. -/
theorem C9_user_message_names_file_stem :
    (Batch.processSyllabus treeKinematics "content/11" "batch/11" "11" []).1
        = [("batch/11/physics/batch_chapter1.jsonl",
            stringify (Batch.createBatchRequest "physics" "chapter1" "Speed" "request-1" "11")
              ++ "\n"),
           ("content/11/physics/chapter1.json",
            stringify2 (.obj [("chapter", .str "Kinematics"),
              ("topics", .arr [.obj [("topic", .str "Speed")]])]))]
      ∧ userMessageOf (Batch.createBatchRequest "physics" "chapter1" "Speed" "request-1" "11")
          = some (Batch.userContent "physics" "chapter1" "Speed" "11")
      ∧ embeds "from the chapter \"chapter1\"" (Batch.userContent "physics" "chapter1" "Speed" "11")
      ∧ ¬ embeds "Kinematics" (Batch.userContent "physics" "chapter1" "Speed" "11") := by
  refine ⟨by rfl, by rfl, ?_, ?_⟩
  · rw [embeds_iff]; decide
  · rw [embeds_iff]; decide

/-! ## Synchronous mode: running the computations -/

theorem Index.run_bind {α β : Type} (p : Index.Prog α) (f : α → Index.Prog β)
    (env : Nat → Index.Settled) :
    ∀ n, (p.bind f).run env n =
      (((f (p.run env n).1).run env (n + (p.run env n).2.length)).1,
        (p.run env n).2 ++ ((f (p.run env n).1).run env (n + (p.run env n).2.length)).2) := by
  induction p with
  | done a => intro n; simp [Index.Prog.bind, Index.Prog.run]
  | call req k ih =>
    intro n
    simp only [Index.Prog.bind, Index.Prog.run, ih, List.length_cons, List.cons_append]
    have : n + 1 + ((k n).run env (n + 1)).2.length
        = n + (((k n).run env (n + 1)).2.length + 1) := by omega
    rw [this]
  | await promise k ih =>
    intro n
    simp only [Index.Prog.bind, Index.Prog.run, ih]

theorem Index.generateAIContent_run_fulfilled (subject chapter topic : String)
    (env : Nat → Index.Settled) (n : Nat) (response : Index.Response)
    (h : env n = .fulfilled response) :
    ∃ g, (Index.generateAIContent subject chapter topic).run env n
      = (.ok g, [Index.requestFor (subject, chapter, topic)]) := by
  cases response with
  | nil =>
    exact ⟨⟨some ("Error generating content for topic: " ++ topic), none⟩,
      by simp [Index.generateAIContent, Index.Prog.run, h, Index.requestFor]⟩
  | cons c rest =>
    exact ⟨⟨c, c⟩, by simp [Index.generateAIContent, Index.Prog.run, h, Index.requestFor]⟩

theorem Index.generateAIContent_run_rejected (subject chapter topic : String)
    (env : Nat → Index.Settled) (n : Nat) (h : env n = .rejected) :
    (Index.generateAIContent subject chapter topic).run env n
      = (.error .remoteError, [Index.requestFor (subject, chapter, topic)]) := by
  simp [Index.generateAIContent, Index.Prog.run, h, Index.requestFor]

/-- A rejected call ends the topic loop at once: the loop returns the exception, and the
request of the topic at hand is the last one issued. -/
theorem Index.topicLoop_run_rejected (subject chapter topic : String) (rest : List String)
    (st : Index.LoopState) (env : Nat → Index.Settled) (n : Nat) (h : env n = .rejected) :
    (Index.topicLoop subject chapter (topic :: rest) st).run env n
      = (.error .remoteError, [Index.requestFor (subject, chapter, topic)]) := by
  have hg := Index.generateAIContent_run_rejected subject chapter topic env n h
  rw [Index.topicLoop, Index.run_bind, hg]
  simp [Index.Prog.run]

theorem Index.topicLoop_run_fulfilled (subject chapter : String) (replies : Nat → Index.Response) :
    ∀ (ts : List String) (st : Index.LoopState) (n : Nat),
      ∃ contents fulls : List String,
        contents.length = ts.length ∧ fulls.length = ts.length ∧
        ∃ st1 : Index.LoopState,
          (Index.topicLoop subject chapter ts st).run (fun i => .fulfilled (replies i)) n
            = (.ok st1, ts.map (fun t => Index.requestFor (subject, chapter, t)))
          ∧ st1.topics = st.topics ++ List.zipWith
              (fun t c => Json.obj [("name", .str t), ("content", .str c)]) ts contents
          ∧ st1.responseOutput = st.responseOutput ++ List.zipWith
              (fun t f => Json.obj [("topic", .str t), ("fullResponse", .str f)]) ts fulls := by
  intro ts
  induction ts with
  | nil =>
    intro st n
    exact ⟨[], [], rfl, rfl, st, by simp [Index.topicLoop, Index.Prog.run], by simp, by simp⟩
  | cons t rest ih =>
    intro st n
    obtain ⟨g, hg⟩ := Index.generateAIContent_run_fulfilled subject chapter t
      (fun i => .fulfilled (replies i)) n (replies n) rfl
    obtain ⟨contents, fulls, hc, hf, st1, hrun, ht, hr⟩ := ih
      { topics := st.topics ++
          [.obj [("name", .str t), ("content", .str (Index.contentText g.content))]]
        responseOutput := st.responseOutput ++
          [.obj [("topic", .str t),
            ("fullResponse", .str (Index.fullResponseText g.fullResponse))]] } (n + 1)
    refine ⟨Index.contentText g.content :: contents,
      Index.fullResponseText g.fullResponse :: fulls, by simp [hc], by simp [hf], st1, ?_, ?_, ?_⟩
    · simp only [Index.topicLoop, Index.run_bind, hg, List.length_singleton, hrun,
        List.map_cons, List.singleton_append]
    · simp [ht]
    · simp [hr]

theorem Index.processChapter_run_fulfilled (subject : String) (first : ChapterElem)
    (more : ChapterData) (chapterName outputFilePath responseFilePath : String) (fs : FS)
    (replies : Nat → Index.Response) (n : Nat) :
    ∃ contents fulls : List String,
      contents.length = first.topics.length ∧ fulls.length = first.topics.length ∧
      (Index.processChapter subject (first :: more) chapterName outputFilePath
          responseFilePath fs).run (fun i => .fulfilled (replies i)) n
        = (.ok (writeFileSync
              (writeFileSync fs outputFilePath
                (stringify2 (.obj [("chapter", .str first.chapter),
                  ("topics", .arr (List.zipWith
                    (fun t c => Json.obj [("name", .str t), ("content", .str c)])
                    first.topics contents))])))
              responseFilePath
              (stringify2 (.arr (List.zipWith
                (fun t f => Json.obj [("topic", .str t), ("fullResponse", .str f)])
                first.topics fulls)))),
            first.topics.map (fun t => Index.requestFor (subject, first.chapter, t))) := by
  obtain ⟨contents, fulls, hc, hf, st1, hrun, ht, hr⟩ :=
    Index.topicLoop_run_fulfilled subject first.chapter replies first.topics ⟨[], []⟩ n
  refine ⟨contents, fulls, hc, hf, ?_⟩
  simp only [Index.processChapter, Index.run_bind, hrun, Index.Prog.run, List.append_nil]
  simp [ht, hr]

theorem Index.requestsOfQueue_append (a b : List Index.Task) :
    Index.requestsOfQueue (a ++ b) = Index.requestsOfQueue a ++ Index.requestsOfQueue b := by
  induction a with
  | nil => simp [Index.requestsOfQueue]
  | cons t rest ih => simp [Index.requestsOfQueue, ih, List.append_assoc]

theorem ChapterFile.wellFormed_iff (chapterFile : ChapterFile) :
    chapterFile.wellFormed = true ↔ ∃ first more, chapterFile.data = some (first :: more) := by
  unfold ChapterFile.wellFormed
  rcases h : chapterFile.data with _ | _ | ⟨first, more⟩ <;> simp

theorem Index.chapterLoop_wellFormed (subject o r : String) :
    ∀ (chapters : List ChapterFile) (queue : List Index.Task),
      (∀ chapterFile ∈ chapters, chapterFile.wellFormed = true) →
      ∃ tasks, Index.chapterLoop subject o r chapters queue = .ok (queue ++ tasks)
        ∧ (∀ t ∈ tasks, t.chapterData ≠ [])
        ∧ Index.requestsOfQueue tasks
            = (Index.topicsOfChapters subject chapters).map Index.requestFor := by
  intro chapters
  induction chapters with
  | nil =>
    intro queue _
    exact ⟨[], by simp [Index.chapterLoop], by simp,
      by simp [Index.requestsOfQueue, Index.topicsOfChapters]⟩
  | cons cf rest ih =>
    intro queue hwf
    obtain ⟨first, more, hcf⟩ := (ChapterFile.wellFormed_iff cf).mp (hwf cf (by simp))
    obtain ⟨tasks, hloop, hne, hreq⟩ := ih
      (queue ++ [Index.Task.mk subject (first :: more) (parseName cf.file)
        (pathJoin o (parseName cf.file ++ ".json"))
        (pathJoin r ("resp" ++ sliceLast (parseName cf.file) ++ ".json"))])
      (fun c hc => hwf c (by simp [hc]))
    refine ⟨Index.Task.mk subject (first :: more) (parseName cf.file)
        (pathJoin o (parseName cf.file ++ ".json"))
        (pathJoin r ("resp" ++ sliceLast (parseName cf.file) ++ ".json")) :: tasks, ?_, ?_, ?_⟩
    · simp only [Index.chapterLoop, hcf, hloop, List.append_assoc, List.singleton_append]
    · intro t ht
      simp only [List.mem_cons] at ht
      rcases ht with rfl | ht
      · simp
      · exact hne t ht
    · simp [Index.requestsOfQueue, Index.topicsOfChapters, Index.topicsOfChapter, hcf, hreq,
        List.map_map, Function.comp]

theorem Index.subjectLoop_wellFormed (o r : String) :
    ∀ (tree : SyllabusTree) (queue : List Index.Task), WellFormed tree →
      ∃ tasks, Index.subjectLoop o r tree queue = .ok (queue ++ tasks)
        ∧ (∀ t ∈ tasks, t.chapterData ≠ [])
        ∧ Index.requestsOfQueue tasks = (Index.topicsOfTree tree).map Index.requestFor := by
  intro tree
  induction tree with
  | nil =>
    intro queue _
    exact ⟨[], by simp [Index.subjectLoop], by simp,
      by simp [Index.requestsOfQueue, Index.topicsOfTree]⟩
  | cons dir rest ih =>
    intro queue hwf
    obtain ⟨tasks1, h1, hne1, hreq1⟩ := Index.chapterLoop_wellFormed dir.subject
      (pathJoin o dir.subject) (pathJoin r dir.subject) dir.chapters queue
      (fun c hc => hwf dir (by simp) c hc)
    obtain ⟨tasks2, h2, hne2, hreq2⟩ := ih (queue ++ tasks1)
      (fun d hd c hc => hwf d (by simp [hd]) c hc)
    refine ⟨tasks1 ++ tasks2, ?_, ?_, ?_⟩
    · simp only [Index.subjectLoop, h1, h2, List.append_assoc]
    · intro t ht
      rcases List.mem_append.mp ht with h | h
      · exact hne1 t h
      · exact hne2 t h
    · simp [Index.requestsOfQueue_append, hreq1, hreq2, Index.topicsOfTree]

theorem Index.runQueue_run_fulfilled (replies : Nat → Index.Response) :
    ∀ (tasks : List Index.Task), (∀ t ∈ tasks, t.chapterData ≠ []) →
      ∀ (fs : FS) (n : Nat),
        ((Index.runQueue tasks fs).run (fun i => .fulfilled (replies i)) n).2
            = Index.requestsOfQueue tasks
          ∧ ((Index.runQueue tasks fs).run (fun i => .fulfilled (replies i)) n).1.2 = none := by
  intro tasks
  induction tasks with
  | nil => intro _ fs n; simp [Index.runQueue, Index.Prog.run, Index.requestsOfQueue]
  | cons t rest ih =>
    intro hne fs n
    obtain ⟨subject, chapterData, chapterName, outputFilePath, responseFilePath⟩ := t
    cases chapterData with
    | nil => exact absurd rfl (hne ⟨subject, [], chapterName, outputFilePath, responseFilePath⟩
        (List.mem_cons_self _ _))
    | cons first more =>
      obtain ⟨contents, fulls, _, _, hrun⟩ := Index.processChapter_run_fulfilled subject first
        more chapterName outputFilePath responseFilePath fs replies n
      have ih2 := ih (fun t ht => hne t (by simp [ht]))
      simp only [Index.runQueue, Index.run_bind, hrun, Index.requestsOfQueue]
      exact ⟨by rw [(ih2 _ _).1], (ih2 _ _).2⟩

/-! ## Synchronous mode: the claims -/

/-- C1: for every chapter file whose first element has a title and N topics, the content
output `processChapter` writes has that title as `chapter` and exactly N topic entries,
the i-th naming the i-th input topic: under the key `topic` in batch mode, and, for every
sequence of replies of the model, under the key `name` in synchronous mode, where the
response log likewise has exactly N entries whose i-th `topic` is the i-th input topic. -/
theorem C1_one_entry_per_topic (subject chapterName grade outputFilePath secondFilePath : String)
    (first : ChapterElem) (more : ChapterData) (fs : FS)
    (replies : Nat → Index.Response) (n : Nat) :
    Batch.processChapter subject (first :: more) chapterName grade outputFilePath
        secondFilePath fs
      = .ok (writeFileSync
          (appendFileSync fs secondFilePath (Batch.batchBlock subject chapterName grade first))
          outputFilePath
          (stringify2 (.obj [("chapter", .str first.chapter),
            ("topics", .arr (first.topics.map (fun t => Json.obj [("topic", .str t)])))])))
    ∧ ∃ contents fulls : List String,
        contents.length = first.topics.length ∧ fulls.length = first.topics.length ∧
        ((Index.processChapter subject (first :: more) chapterName outputFilePath
            secondFilePath fs).run (fun i => .fulfilled (replies i)) n).1
          = .ok (writeFileSync
              (writeFileSync fs outputFilePath
                (stringify2 (.obj [("chapter", .str first.chapter),
                  ("topics", .arr (List.zipWith
                    (fun t c => Json.obj [("name", .str t), ("content", .str c)])
                    first.topics contents))])))
              secondFilePath
              (stringify2 (.arr (List.zipWith
                (fun t f => Json.obj [("topic", .str t), ("fullResponse", .str f)])
                first.topics fulls)))) := by
  refine ⟨?_, ?_⟩
  · simp only [Batch.processChapter, Batch.chapterOutput_eq]
  · obtain ⟨contents, fulls, hc, hf, hrun⟩ := Index.processChapter_run_fulfilled subject first
      more chapterName outputFilePath secondFilePath fs replies n
    exact ⟨contents, fulls, hc, hf, by rw [hrun]⟩

/-- C3 (the code at the failing input): in the cohort run on `treePhysics`, the remote
call for the first topic `Speed` of the chapter `Motion` is rejected and every later call
would be answered. `processSyllabus` then writes no file at all, its `catch` logs the
rejection, and the only request issued is the one for `Speed`: there is no content entry
with a placeholder for `Speed`, and the topic `Acceleration` and the chapter `Waves` are
never processed. -/
theorem C3_rejected_call_aborts_run :
    (Index.cohortRun "/repo" "11" treePhysics []).run firstCallRejected 0
        = (([], some JsError.remoteError), [Index.requestFor ("physics", "Motion", "Speed")])
      ∧ (Index.processChapter "physics" [⟨"Motion", ["Speed", "Acceleration"]⟩] "chapter1"
          "/repo/content/11/physics/chapter1.json" "/repo/response/11/physics/resp1.json"
          []).run firstCallRejected 0
        = (.error JsError.remoteError, [Index.requestFor ("physics", "Motion", "Speed")]) := by
  constructor <;> rfl

/-- C6 (as stated, refuted): in `treeMalformedMiddle` the second of three chapter files
holds the empty array. In a synchronous-mode `processSyllabus` invocation in which every
remote call gets a reply, the only request issued is the one for the topic of the first
chapter: the topic `Sound` of the third chapter, which the concatenation of the chapters'
topics contains, is never requested. -/
theorem C6_malformed_chapter_ends_calls :
    ((Index.processSyllabus treeMalformedMiddle "/repo/content/11" "/repo/response/11" []).run
        numberedReplies 0).2
        = [Index.requestFor ("physics", "Motion", "Speed")]
      ∧ (Index.topicsOfTree treeMalformedMiddle).map Index.requestFor
        = [Index.requestFor ("physics", "Motion", "Speed"),
           Index.requestFor ("physics", "Waves", "Sound")]
      ∧ ((Index.processSyllabus treeMalformedMiddle "/repo/content/11" "/repo/response/11"
            []).run numberedReplies 0).2
        ≠ (Index.topicsOfTree treeMalformedMiddle).map Index.requestFor := by
  have h1 : ((Index.processSyllabus treeMalformedMiddle "/repo/content/11"
      "/repo/response/11" []).run numberedReplies 0).2
      = [Index.requestFor ("physics", "Motion", "Speed")] := rfl
  have h2 : (Index.topicsOfTree treeMalformedMiddle).map Index.requestFor
      = [Index.requestFor ("physics", "Motion", "Speed"),
         Index.requestFor ("physics", "Waves", "Sound")] := rfl
  refine ⟨h1, h2, ?_⟩
  rw [h1, h2]
  intro h
  exact absurd (congrArg List.length h) (by decide)

/-- C6 (amended): for a synchronous-mode `processSyllabus` invocation on a tree whose
chapter files are all well formed (each parses to an array with a first element), in which
no remote call fails (every call gets a reply), the sequence of requests issued is exactly
one request per topic, in the order of the subjects and chapter files of the listing and
of the topics of each chapter: none repeated, none skipped, none reordered. -/
theorem C6_calls_follow_topic_order (tree : SyllabusTree)
    (outputFolderPath responseFolderPath : String) (fs : FS)
    (replies : Nat → Index.Response) (hwf : WellFormed tree) :
    ((Index.processSyllabus tree outputFolderPath responseFolderPath fs).run
        (fun i => .fulfilled (replies i)) 0).2
      = (Index.topicsOfTree tree).map Index.requestFor := by
  obtain ⟨tasks, hq, hne, hreq⟩ :=
    Index.subjectLoop_wellFormed outputFolderPath responseFolderPath tree [] hwf
  simp only [Index.processSyllabus, hq, List.nil_append]
  rw [(Index.runQueue_run_fulfilled replies tasks hne fs 0).1, hreq]

/-- Witness for `C6_calls_follow_topic_order`: the tree `treePhysics`, two chapters with
three topics in all. -/
theorem C6_calls_follow_topic_order_witness :
    WellFormed treePhysics
    ∧ ((Index.processSyllabus treePhysics "/repo/content/11" "/repo/response/11" []).run
          (fun i => .fulfilled ((fun k => [some ("reply " ++ toString k)]) i)) 0).2
        = (Index.topicsOfTree treePhysics).map Index.requestFor :=
  ⟨by decide, C6_calls_follow_topic_order treePhysics "/repo/content/11" "/repo/response/11" []
    (fun k => [some ("reply " ++ toString k)]) (by decide)⟩

/-- C7 (the code at the failing input): for the chapter files `chapter1.json` and
`chapter11.json` of one subject, whose chapter names `chapter1` and `chapter11` differ,
`processSyllabus` computes the same response-log path `resp1.json` (and two different
content paths); after the run the file holds the log of `chapter11` alone, the log of
`chapter1` having been overwritten. -/
theorem C7_response_paths_collide :
    Index.subjectLoop "/repo/content/11" "/repo/response/11" treeElevenChapters []
        = .ok [⟨"physics", [⟨"Motion", ["Speed"]⟩], "chapter1",
                "/repo/content/11/physics/chapter1.json",
                "/repo/response/11/physics/resp1.json"⟩,
               ⟨"physics", [⟨"Waves", ["Sound"]⟩], "chapter11",
                "/repo/content/11/physics/chapter11.json",
                "/repo/response/11/physics/resp1.json"⟩]
      ∧ readFile ((Index.cohortRun "/repo" "11" treeElevenChapters []).run numberedReplies 0).1.1
          "/repo/response/11/physics/resp1.json"
        = some (stringify2 (.arr [.obj [("topic", .str "Sound"),
            ("fullResponse", .str "reply 1")]])) := by
  constructor <;> rfl

/-- C8 (the code at the failing input): in the run of the cohort `11` on a tree with the
subject `physics`, the chapter `Kinematics` and the topic `Speed`, the only request
carries the prompt of `generateDynamicPrompt`, which says `12th grade` and nowhere
`11th`: the grade slot tests the subject name, not the cohort. -/
theorem C8_cohort_11_prompt_says_12th :
    ((Index.cohortRun "/repo" "11" treeKinematics []).run numberedReplies 0).2
        = [⟨"gpt-4o-mini", Index.generateDynamicPrompt "physics" "Kinematics" "Speed"⟩]
      ∧ embeds "suitable for a 12th grade student"
          (Index.generateDynamicPrompt "physics" "Kinematics" "Speed")
      ∧ ¬ embeds "11th" (Index.generateDynamicPrompt "physics" "Kinematics" "Speed") := by
  refine ⟨by rfl, ?_, ?_⟩
  · rw [embeds_iff]; decide
  · rw [embeds_iff]; decide

/-! ## The two concurrent invocations: every call of `index.js` is awaited at once -/

theorem Index.awaitsEachCall_bind {α β : Type} (p : Index.Prog α) (f : α → Index.Prog β)
    (hp : Index.AwaitsEachCall p) (hf : ∀ a, Index.AwaitsEachCall (f a)) :
    Index.AwaitsEachCall (p.bind f) := by
  induction hp with
  | done a => exact hf a
  | call req k _ ih =>
    exact Index.AwaitsEachCall.call req (fun promise s => (k promise s).bind f) ih

theorem Index.awaitsEachCall_generateAIContent (subject chapter topic : String) :
    Index.AwaitsEachCall (Index.generateAIContent subject chapter topic) := by
  have h := Index.AwaitsEachCall.call
    ⟨"gpt-4o-mini", Index.generateDynamicPrompt subject chapter topic⟩
    (fun (_ : Nat) (settled : Index.Settled) =>
      (match settled with
        | Index.Settled.rejected => Index.Prog.done (Except.error JsError.remoteError)
        | Index.Settled.fulfilled [] =>
          Index.Prog.done
            (Except.ok ⟨some ("Error generating content for topic: " ++ topic), none⟩)
        | Index.Settled.fulfilled (content :: _) =>
          Index.Prog.done (Except.ok ⟨content, content⟩) :
        Index.Prog (Except JsError Index.Generated)))
    (by
      intro promise s
      cases s with
      | rejected => exact Index.AwaitsEachCall.done _
      | fulfilled response =>
        cases response with
        | nil => exact Index.AwaitsEachCall.done _
        | cons c rest => exact Index.AwaitsEachCall.done _)
  exact h

theorem Index.awaitsEachCall_topicLoop (subject chapter : String) :
    ∀ (ts : List String) (st : Index.LoopState),
      Index.AwaitsEachCall (Index.topicLoop subject chapter ts st) := by
  intro ts
  induction ts with
  | nil => intro st; exact Index.AwaitsEachCall.done _
  | cons t rest ih =>
    intro st
    rw [Index.topicLoop]
    refine Index.awaitsEachCall_bind _ _ (Index.awaitsEachCall_generateAIContent _ _ _) ?_
    intro r
    cases r with
    | error e => exact Index.AwaitsEachCall.done _
    | ok g => exact ih _

theorem Index.awaitsEachCall_processChapter (subject : String) (chapterData : ChapterData)
    (chapterName outputFilePath responseFilePath : String) (fs : FS) :
    Index.AwaitsEachCall (Index.processChapter subject chapterData chapterName outputFilePath
      responseFilePath fs) := by
  cases chapterData with
  | nil => exact Index.AwaitsEachCall.done _
  | cons first more =>
    rw [Index.processChapter]
    refine Index.awaitsEachCall_bind _ _ (Index.awaitsEachCall_topicLoop _ _ _ _) ?_
    intro r
    cases r with
    | error e => exact Index.AwaitsEachCall.done _
    | ok st => exact Index.AwaitsEachCall.done _

theorem Index.awaitsEachCall_runQueue :
    ∀ (tasks : List Index.Task) (fs : FS), Index.AwaitsEachCall (Index.runQueue tasks fs) := by
  intro tasks
  induction tasks with
  | nil => intro fs; exact Index.AwaitsEachCall.done _
  | cons t rest ih =>
    intro fs
    rw [Index.runQueue]
    refine Index.awaitsEachCall_bind _ _ (Index.awaitsEachCall_processChapter _ _ _ _ _ _) ?_
    intro r
    cases r with
    | error e => exact Index.AwaitsEachCall.done _
    | ok fs1 => exact ih fs1

theorem Index.awaitsEachCall_processSyllabus (tree : SyllabusTree)
    (outputFolderPath responseFolderPath : String) (fs : FS) :
    Index.AwaitsEachCall (Index.processSyllabus tree outputFolderPath responseFolderPath fs) := by
  unfold Index.processSyllabus
  cases Index.subjectLoop outputFolderPath responseFolderPath tree [] with
  | error e => exact Index.AwaitsEachCall.done _
  | ok queue => exact Index.awaitsEachCall_runQueue queue fs

/-! ## The two concurrent invocations: the invariant of a run -/

theorem Index.ownedBy_filter (i : Nat) (q : Nat × Nat × Index.Request → Bool)
    (calls : List (Nat × Nat × Index.Request)) :
    Index.ownedBy i (calls.filter q) = (Index.ownedBy i calls).filter q := by
  simp only [Index.ownedBy, List.filter_filter]
  congr 1
  funext c
  exact Bool.and_comm _ _

theorem Index.ownedBy_append (i : Nat) (a b : List (Nat × Nat × Index.Request)) :
    Index.ownedBy i (a ++ b) = Index.ownedBy i a ++ Index.ownedBy i b := by
  simp [Index.ownedBy]

theorem Index.ownedBy_subset (i : Nat) (calls : List (Nat × Nat × Index.Request))
    (c : Nat × Nat × Index.Request) (h : c ∈ Index.ownedBy i calls) : c ∈ calls :=
  (List.mem_filter.mp h).1

/-- A thread that awaits each call at once and runs either has returned, or starts one
call and stops at the `await` of its promise. -/
theorem Index.advance_awaitsEachCall {α : Type} (thread : Nat)
    (results : List (Nat × Index.Settled)) (next : Nat) (p : Index.Prog α)
    (hp : Index.AwaitsEachCall p) (hfresh : Index.resultOf results next = none) :
    (Index.advance thread results p next = (p, next, []))
    ∨ (∃ req k, (∀ s, Index.AwaitsEachCall (k s))
        ∧ Index.advance thread results p next
            = (.await next k, next + 1, [(next, thread, req)])) := by
  cases hp with
  | done a => exact Or.inl rfl
  | call req k hk =>
    refine Or.inr ⟨req, k next, hk next, ?_⟩
    simp [Index.advance, hfresh]

/-- A thread in a state of `ThreadOk` that runs either starts no call and stays in such a
state, or had no call in flight, starts one and stops at the `await` of its promise. -/
theorem Index.advance_threadOk {α : Type} (inFlight : List (Nat × Nat × Index.Request))
    (results : List (Nat × Index.Settled)) (next thread : Nat) (p : Index.Prog α)
    (hI1 : ∀ c ∈ inFlight, c.1 < next ∧ Index.resultOf results c.1 = none)
    (hfresh : Index.resultOf results next = none)
    (hok : Index.ThreadOk inFlight results thread (some p)) :
    (∃ p1, Index.advance thread results p next = (p1, next, [])
        ∧ Index.ThreadOk inFlight results thread (some p1))
    ∨ (∃ req k, Index.ownedBy thread inFlight = [] ∧ (∀ s, Index.AwaitsEachCall (k s))
        ∧ Index.advance thread results p next
            = (.await next k, next + 1, [(next, thread, req)])) := by
  rcases hok with ⟨hown, hp⟩ | ⟨promise, k, rfl, hk, ⟨s, hres, hown⟩ | ⟨req, hown⟩⟩
  · rcases Index.advance_awaitsEachCall thread results next p hp hfresh with h | ⟨req, k, hk, h⟩
    · exact Or.inl ⟨p, h, Or.inl ⟨hown, hp⟩⟩
    · exact Or.inr ⟨req, k, hown, hk, h⟩
  · have hadv : Index.advance thread results (.await promise k) next
        = Index.advance thread results (k s) next := by
      simp [Index.advance, hres]
    rcases Index.advance_awaitsEachCall thread results next (k s) (hk s) hfresh
      with h | ⟨req, k1, hk1, h⟩
    · exact Or.inl ⟨k s, hadv.trans h, Or.inl ⟨hown, hk s⟩⟩
    · exact Or.inr ⟨req, k1, hown, hk1, hadv.trans h⟩
  · have hmem : (promise, thread, req) ∈ inFlight :=
      Index.ownedBy_subset thread inFlight _ (by rw [hown]; exact List.mem_singleton.mpr rfl)
    have hres := (hI1 _ hmem).2
    refine Or.inl ⟨.await promise k, by simp [Index.advance, hres], ?_⟩
    exact Or.inr ⟨promise, k, rfl, hk, Or.inr ⟨req, hown⟩⟩

theorem Index.step_run_none {α : Type} (m : Index.Machine α) (thread : Nat)
    (h : m.threads.get? thread = none) : m.step (.run thread) = m := by
  simp only [Index.Machine.step, h]

theorem Index.step_run_some {α : Type} (m : Index.Machine α) (thread : Nat) (p : Index.Prog α)
    (h : m.threads.get? thread = some p) :
    m.step (.run thread)
      = { threads := m.threads.set thread (Index.advance thread m.results p m.next).1
          results := m.results
          next := (Index.advance thread m.results p m.next).2.1
          inFlight := m.inFlight ++ (Index.advance thread m.results p m.next).2.2 } := by
  simp only [Index.Machine.step, h]

theorem Index.inv_step_run {α : Type} (m : Index.Machine α) (thread : Nat)
    (hinv : m.Inv) : (m.step (.run thread)).Inv := by
  cases hget : m.threads.get? thread with
  | none => rw [Index.step_run_none m thread hget]; exact hinv
  | some p =>
    obtain ⟨hI1, hI2, hI3⟩ := hinv
    rw [Index.step_run_some m thread p hget]
    have hlt : thread < m.threads.length := by
      rcases Nat.lt_or_ge thread m.threads.length with h | h
      · exact h
      · rw [List.get?_eq_none.mpr h] at hget; cases hget
    have hok : Index.ThreadOk m.inFlight m.results thread (some p) := by
      have := hI3 thread
      rwa [hget] at this
    have hfresh := hI2 m.next (Nat.le_refl _)
    have hthreads : ∀ (q : Index.Prog α) (i : Nat),
        (m.threads.set thread q).get? i
          = if i = thread then some q else m.threads.get? i := by
      intro q i
      by_cases hi : i = thread
      · subst hi
        rw [List.get?_eq_getElem?, List.getElem?_set_self hlt, if_pos rfl]
      · rw [List.get?_eq_getElem?, List.get?_eq_getElem?,
          List.getElem?_set_ne (fun h => hi h.symm), if_neg hi]
    rcases Index.advance_threadOk m.inFlight m.results m.next thread p hI1 hfresh hok
      with ⟨p1, hadv, hok1⟩ | ⟨req, k, hown, hk, hadv⟩
    · simp only [hadv, List.append_nil]
      refine ⟨hI1, hI2, ?_⟩
      intro i
      show Index.ThreadOk m.inFlight m.results i ((m.threads.set thread p1).get? i)
      simp only [hthreads]
      by_cases hi : i = thread
      · subst hi
        simpa using hok1
      · simpa [hi] using hI3 i
    · simp only [hadv]
      refine ⟨?_, ?_, ?_⟩
      · intro c hc
        rcases List.mem_append.mp hc with h | h
        · exact ⟨Nat.lt_succ_of_lt (hI1 c h).1, (hI1 c h).2⟩
        · rw [List.mem_singleton.mp h]
          exact ⟨Nat.lt_succ_self _, hfresh⟩
      · intro promise hp
        have hp1 : m.next + 1 ≤ promise := hp
        exact hI2 promise (by omega)
      · intro i
        show Index.ThreadOk (m.inFlight ++ [(m.next, thread, req)]) m.results i
          ((m.threads.set thread (.await m.next k)).get? i)
        simp only [hthreads]
        by_cases hi : i = thread
        · subst hi
          simp only [if_true]
          refine Or.inr ⟨m.next, k, rfl, hk, Or.inr ⟨req, ?_⟩⟩
          rw [Index.ownedBy_append, hown]
          simp [Index.ownedBy]
        · simp only [if_neg hi]
          have hsame : Index.ownedBy i (m.inFlight ++ [(m.next, thread, req)])
              = Index.ownedBy i m.inFlight := by
            rw [Index.ownedBy_append]
            have : Index.ownedBy i [(m.next, thread, req)] = [] := by
              have hne : ¬ thread = i := fun h => hi h.symm
              simp [Index.ownedBy, hne]
            rw [this, List.append_nil]
          have h3 := hI3 i
          cases hx : m.threads.get? i with
          | none =>
            rw [hx] at h3
            simpa [Index.ThreadOk, hsame] using h3
          | some q =>
            rw [hx] at h3
            simpa [Index.ThreadOk, hsame] using h3

theorem Index.resultOf_cons (promise q : Nat) (s : Index.Settled)
    (results : List (Nat × Index.Settled)) :
    Index.resultOf ((promise, s) :: results) q
      = if promise = q then some s else Index.resultOf results q := rfl

theorem Index.inv_step_settle {α : Type} (m : Index.Machine α) (promise : Nat)
    (how : Index.Settled) (hinv : m.Inv) : (m.step (.settle promise how)).Inv := by
  obtain ⟨hI1, hI2, hI3⟩ := hinv
  simp only [Index.Machine.step]
  split
  · rename_i hany
    obtain ⟨c0, hc0, hc0p⟩ := List.any_eq_true.mp hany
    have hc0eq : c0.1 = promise := by simpa using hc0p
    have hlt : promise < m.next := hc0eq ▸ (hI1 c0 hc0).1
    refine ⟨?_, ?_, ?_⟩
    · intro c hc
      obtain ⟨hmem, hne⟩ := List.mem_filter.mp hc
      have hne1 : ¬ promise = c.1 := by
        intro h
        simp [h] at hne
      refine ⟨(hI1 c hmem).1, ?_⟩
      show Index.resultOf ((promise, how) :: m.results) c.1 = none
      rw [Index.resultOf_cons, if_neg hne1]
      exact (hI1 c hmem).2
    · intro q hq
      have hq1 : m.next ≤ q := hq
      show Index.resultOf ((promise, how) :: m.results) q = none
      rw [Index.resultOf_cons, if_neg (by omega)]
      exact hI2 q hq1
    · intro i
      show Index.ThreadOk (m.inFlight.filter (fun c => c.1 != promise))
        ((promise, how) :: m.results) i (m.threads.get? i)
      have h3 := hI3 i
      cases hx : m.threads.get? i with
      | none =>
        rw [hx] at h3
        show Index.ownedBy i _ = []
        rw [Index.ownedBy_filter, show Index.ownedBy i m.inFlight = [] from h3]
        rfl
      | some p =>
        rw [hx] at h3
        rcases h3 with ⟨hown, hp⟩ | ⟨q, k, rfl, hk, ⟨s, hres, hown⟩ | ⟨req, hown⟩⟩
        · refine Or.inl ⟨?_, hp⟩
          rw [Index.ownedBy_filter, hown]
          rfl
        · refine Or.inr ⟨q, k, rfl, hk, Or.inl ?_⟩
          by_cases hq : promise = q
          · exact ⟨how, by rw [Index.resultOf_cons, if_pos hq],
              by rw [Index.ownedBy_filter, hown]; rfl⟩
          · exact ⟨s, by rw [Index.resultOf_cons, if_neg hq, hres],
              by rw [Index.ownedBy_filter, hown]; rfl⟩
        · by_cases hq : promise = q
          · refine Or.inr ⟨q, k, rfl, hk, Or.inl ⟨how, ?_, ?_⟩⟩
            · rw [Index.resultOf_cons, if_pos hq]
            · rw [Index.ownedBy_filter, hown]
              simp [hq]
          · refine Or.inr ⟨q, k, rfl, hk, Or.inr ⟨req, ?_⟩⟩
            rw [Index.ownedBy_filter, hown]
            have hq1 : ¬ q = promise := fun h => hq h.symm
            simp [hq1]
  · exact ⟨hI1, hI2, hI3⟩

theorem Index.inv_foldl {α : Type} :
    ∀ (schedule : List Index.Action) (m : Index.Machine α), m.Inv →
      (schedule.foldl Index.Machine.step m).Inv := by
  intro schedule
  induction schedule with
  | nil => intro m h; exact h
  | cons a rest ih =>
    intro m h
    simp only [List.foldl_cons]
    apply ih
    cases a with
    | run thread => exact Index.inv_step_run m thread h
    | settle promise how => exact Index.inv_step_settle m promise how h

theorem Index.ownedBy_length_le_one {α : Type} (m : Index.Machine α) (hinv : m.Inv)
    (thread : Nat) : (Index.ownedBy thread m.inFlight).length ≤ 1 := by
  have h3 := hinv.2.2 thread
  cases hx : m.threads.get? thread with
  | none =>
    rw [hx] at h3
    rw [show Index.ownedBy thread m.inFlight = [] from h3]
    exact Nat.zero_le _
  | some p =>
    rw [hx] at h3
    rcases h3 with ⟨hown, _⟩ | ⟨q, k, _, _, ⟨s, _, hown⟩ | ⟨req, hown⟩⟩ <;> rw [hown] <;> simp

/-- The bound of one call in flight per thread is a property of the code, not of the
computations in general: a thread that starts two calls before it awaits has two calls in
flight. -/
theorem Index.startsTwoCalls_has_two_in_flight :
    (Index.ownedBy 0
      ((Index.Machine.mk [Index.startsTwoCalls] [] 0 []).step (.run 0)).inFlight).length
      = 2 := by
  rfl

/-! ## The two concurrent invocations: the claims -/

/-- C10 (as stated, refuted): the script is run with the tree `treeKinematics` under
`syllabus/11` and the tree `treePhysics` under `syllabus/12`. When its two top-level calls
of `processSyllabus` have returned (thread 0 has run, then thread 1) and no call has
settled yet, the first call of the cohort `11` and the first call of the cohort `12` are
both in flight: two remote calls at the same time. -/
theorem C10_two_calls_in_flight :
    (Index.script "/repo" treeKinematics treePhysics [] [.run 0, .run 1]).inFlight
        = [(0, 0, Index.requestFor ("physics", "Kinematics", "Speed")),
           (1, 1, Index.requestFor ("physics", "Motion", "Speed"))]
      ∧ (Index.script "/repo" treeKinematics treePhysics [] [.run 0, .run 1]).results = [] := by
  constructor <;> rfl

/-- C10 (amended): within each of the two `processSyllabus` invocations of a
synchronous-mode run the remote calls are strictly sequential: whatever the two trees,
and in whatever order the two invocations run and the calls in flight settle, at every
point of the run each invocation has at most one call of its own in flight, because it
awaits each call it starts before it goes on. The two invocations are not sequenced with
respect to each other. -/
theorem C10_sequential_within_invocation (dirname : String) (tree11 tree12 : SyllabusTree)
    (fs : FS) (schedule : List Index.Action) (thread : Nat) :
    (Index.ownedBy thread (Index.script dirname tree11 tree12 fs schedule).inFlight).length
      ≤ 1 := by
  apply Index.ownedBy_length_le_one
  apply Index.inv_foldl
  refine ⟨fun c hc => (nomatch hc), fun _ _ => rfl, ?_⟩
  intro i
  show Index.ThreadOk [] [] i
    ([Index.cohortRun dirname "11" tree11 fs, Index.cohortRun dirname "12" tree12 fs].get? i)
  match i with
  | 0 => exact Or.inl ⟨rfl, Index.awaitsEachCall_processSyllabus _ _ _ _⟩
  | 1 => exact Or.inl ⟨rfl, Index.awaitsEachCall_processSyllabus _ _ _ _⟩
  | _ + 2 => exact rfl

end SyllabusPipeline
